import Mathlib

/-!
# FadeMaster Pro (Aioflcu/Barber): booking store and offline cache shell

A shallow embedding of `src/src/App.js` (the booking form, the booking and service
collections and their persistence) and of `src/public/sw.js` (the service worker), with
the properties the specification states about them.

Conventions of the embedding

* JavaScript strings are Lean `String`s (sequences of Unicode scalar values).
* Instants are `Int` milliseconds since the epoch, the time value of a `Date`;
  an invalid `Date` (time value `NaN`) is `none`.
* The platform services the code calls (the `Date` constructor on a string,
  `Date.prototype.toISOString`, the clock, `Math.random`, the network) are inputs of the
  functions that use them.
-/

namespace Barber

/-! ## Data model (`src/src/App.js`) -/

/-- An entry of the service collection: `{ id, name, price, minutes }`. -/
structure Service where
  id : String
  name : String
  price : Int
  minutes : Int
  /-- The order of the object's keys: `false` for `id, name, price, minutes`, as
  `DEFAULT_SERVICES` writes them; `true` for `name, price, minutes, id`, the order of
  the object `{...s, id: id("s_")}` that `addService` builds. -/
  idLast : Bool := false
  deriving DecidableEq, Repr

/-- The argument of `addService`: a service without its id. -/
structure ServiceInput where
  name : String
  price : Int
  minutes : Int
  deriving DecidableEq, Repr

/-- The object literal built by `submit` (App.js lines 107-118), field for field. -/
structure Booking where
  id : String
  name : String
  phone : String
  datetime : String
  serviceId : String
  serviceName : String
  price : Int
  notes : String
  status : String
  createdAt : String
  deriving DecidableEq, Repr

/-- The `form` state of `BookPage` (App.js lines 76-78). -/
structure Form where
  name : String
  phone : String
  date : String
  time : String
  serviceId : String
  notes : String
  deriving DecidableEq, Repr

/-- `DEFAULT_SERVICES` (App.js lines 20-25). -/
def DEFAULT_SERVICES : List Service :=
  [ { id := "s1", name := "Haircut", price := 2000, minutes := 30 },
    { id := "s2", name := "Beard Trim", price := 1000, minutes := 15 },
    { id := "s3", name := "Hair Dye", price := 2500, minutes := 60 },
    { id := "s4", name := "Full Groom", price := 3500, minutes := 75 } ]

/-! ## String primitives used by the form -/

/-- The characters `String.prototype.trim` strips: ECMAScript WhiteSpace and
LineTerminator code points. -/
def isJsWhiteSpace (c : Char) : Bool :=
  let n := c.toNat
  n == 0x09 || n == 0x0A || n == 0x0B || n == 0x0C || n == 0x0D || n == 0x20 ||
  n == 0xA0 || n == 0x1680 || (0x2000 ≤ n && n ≤ 0x200A) || n == 0x2028 ||
  n == 0x2029 || n == 0x202F || n == 0x205F || n == 0x3000 || n == 0xFEFF

/-- Trim on a list of characters: strip white space at both ends. -/
def trimChars (cs : List Char) : List Char :=
  ((cs.dropWhile isJsWhiteSpace).reverse.dropWhile isJsWhiteSpace).reverse

/-- `s.trim()`. -/
def jsTrim (s : String) : String := String.mk (trimChars s.data)

/-- The class `\d` of a regular expression without flags: the ten ASCII digits. -/
def isAsciiDigit (c : Char) : Bool := '0' ≤ c && c ≤ '9'

/-- `\d{7,15}$` tried at the start of `cs`: the whole of `cs` is 7 to 15 digits. -/
def digitsToEnd (cs : List Char) : Bool :=
  decide (7 ≤ cs.length) && decide (cs.length ≤ 15) && cs.all isAsciiDigit

/-- `/^\+?\d{7,15}$/.test(s)` (App.js line 91). The optional `\+` is tried greedily
first and, on failure of the rest, the matcher backtracks to the empty alternative. -/
def phoneRegexTest (s : String) : Bool :=
  match s.data with
  | c :: rest => (c == '+' && digitsToEnd rest) || digitsToEnd (c :: rest)
  | [] => digitsToEnd []

/-- The digit of base 36 for a value below 36: `0` to `9`, then `a` to `z`. -/
def digit36 (d : Nat) : Char :=
  if d < 10 then Char.ofNat (48 + d) else Char.ofNat (87 + d)

/-- The digits of `n` in base 36, most significant first, in front of `acc`; `fuel`
bounds the number of digits. -/
def digits36 : Nat → Nat → List Char → List Char
  | 0, _, acc => acc
  | fuel + 1, n, acc =>
    if n / 36 = 0 then digit36 (n % 36) :: acc
    else digits36 fuel (n / 36) (digit36 (n % 36) :: acc)

/-- `n.toString(36)` for an integer `n`. -/
def toString36 (n : Int) : String :=
  if n < 0 then String.mk ('-' :: digits36 (n.natAbs + 1) n.natAbs [])
  else String.mk (digits36 (n.natAbs + 1) n.natAbs [])

/-- The id utility (App.js line 28): prefix, `Date.now().toString(36)`, then the four
characters `Math.random().toString(36).slice(2,6)`; `now` and `rnd` are the two
platform readings. -/
def id (p : String) (now : Int) (rnd : String) : String :=
  p ++ toString36 now ++ rnd

/-! ## `BookPage`: validation and submit (App.js lines 89-123) -/

/-- The platform readings of one run of `submit`, in the order the code takes them. -/
structure SubmitEnv where
  /-- The time value of `new Date(s)`; `none` when it is `NaN`. -/
  parseDate : String → Option Int
  /-- `Date.prototype.toISOString` on a valid time value. -/
  toISOString : Int → String
  /-- The reading of `new Date()` in the past check (line 104). -/
  nowCheck : Int
  /-- The reading of `Date.now()` inside `id("b_")` (line 108). -/
  nowId : Int
  /-- The value of `Math.random().toString(36).slice(2,6)` inside `id("b_")`. -/
  random : String
  /-- The reading of `new Date()` stored as `createdAt` (line 117). -/
  nowCreated : Int

/-- `validate` (App.js lines 89-95): the message of the first failing check, or `none`
for JavaScript `null`. -/
def validate (form : Form) : Option String :=
  if jsTrim form.name = "" then some "Please enter your name"
  else if !phoneRegexTest (jsTrim form.phone) then
    some "Enter a valid phone (digits, optional +)"
  else if form.date = "" then some "Select a date"
  else if form.time = "" then some "Select a time"
  else none

/-- How a run of `submit` ends. -/
inductive SubmitOutcome where
  /-- `setError(msg); return` : the message is shown, `onBook` is not called. -/
  | rejected (error : String)
  /-- Reading `svc.id` with `svc` undefined throws a `TypeError` out of the handler;
  the error state keeps the `""` of line 99 and `onBook` is not called. -/
  | typeError
  /-- `onBook(booking)` is called with the booking. -/
  | booked (booking : Booking)
  deriving DecidableEq, Repr

/-- `submit` (App.js lines 97-123) up to the call of `onBook`. -/
def submit (env : SubmitEnv) (services : List Service) (form : Form) : SubmitOutcome :=
  match validate form with
  | some v => .rejected v
  | none =>
    match env.parseDate (form.date ++ "T" ++ form.time) with
    | none => .rejected "Invalid date/time"
    | some dt =>
      if dt < env.nowCheck then .rejected "Cannot book in the past"
      else
        match services.find? (fun s => s.id == form.serviceId) with
        | none => .typeError
        | some svc =>
          .booked
            { id := id "b_" env.nowId env.random
              name := jsTrim form.name
              phone := jsTrim form.phone
              datetime := env.toISOString dt
              serviceId := svc.id
              serviceName := svc.name
              price := svc.price
              notes := form.notes
              status := "upcoming"
              createdAt := env.toISOString env.nowCreated }

/-- The `error` state of `BookPage` after `submit`: line 99 clears it, a failing check
sets its message. -/
def SubmitOutcome.error : SubmitOutcome → String
  | .rejected e => e
  | .typeError => ""
  | .booked _ => ""

/-! ## `App`: the two collections and their handlers (App.js lines 246-263) -/

/-- The React state of `App`. -/
structure AppState where
  theme : String
  bookings : List Booking
  services : List Service
  deriving DecidableEq, Repr

/-- `handleBook` (line 258): `[bk, ...prev]`. -/
def handleBook (bk : Booking) (st : AppState) : AppState :=
  { st with bookings := bk :: st.bookings }

/-- `handleComplete` (line 259): `prev.map(b => b.id === id ? {...b, status: "completed"} : b)`. -/
def handleComplete (bid : String) (st : AppState) : AppState :=
  { st with bookings :=
      st.bookings.map (fun b => if b.id = bid then { b with status := "completed" } else b) }

/-- `handleDelete` (line 260): `prev.filter(b => b.id !== id)`. -/
def handleDelete (bid : String) (st : AppState) : AppState :=
  { st with bookings := st.bookings.filter (fun b => b.id != bid) }

/-- `addService` (line 262): `[{...s, id: id("s_")}, ...prev]`. -/
def addService (s : ServiceInput) (now : Int) (rnd : String) (st : AppState) : AppState :=
  { st with services :=
      { id := id "s_" now rnd, name := s.name, price := s.price, minutes := s.minutes,
        idLast := true } :: st.services }

/-- `removeService` (line 263): `prev.filter(s => s.id !== sid)`. -/
def removeService (sid : String) (st : AppState) : AppState :=
  { st with services := st.services.filter (fun s => s.id != sid) }

/-- The effect on `App` of pressing "Book Now": `submit` runs against the current
services and, when it reaches line 119, `onBook = handleBook` is applied. -/
def pressBook (env : SubmitEnv) (form : Form) (st : AppState) : AppState :=
  match submit env st.services form with
  | .booked b => handleBook b st
  | _ => st

/-! ## The service worker (`src/public/sw.js`)

The fetch handler is a function of the intercepted request, the network and the cache
storage. A promise that rejects is `none`; a promise that resolves to `undefined`
(no response) is `none` as well, for `respondWith` turns both into a failed request.
Cache writes are taken at their completion. Requests are matched by URL, written
relative to the worker's origin, as the manifest of `sw.js` writes them. The listeners
are modelled as they run once the worker is in place; whether the page registers the
worker (`src/index.js` imports `register`, a name `serviceWorkerRegistration.js` does
not export) is not part of this model. -/

/-- The fields of an intercepted `Request` the handler reads. -/
structure Request where
  url : String
  mode : String
  destination : String
  deriving DecidableEq, Repr

/-- A response: the fields the handler reads, and a body. -/
structure Response where
  status : Nat
  type : String
  body : String
  deriving DecidableEq, Repr

/-- The network: `fetch(req)` resolves to a response or rejects (`none`). -/
abbrev Network := Request → Option Response

/-- One cache bucket: its entries, request URL and response, oldest first. -/
abbrev Cache := List (String × Response)

/-- The cache storage `caches`: the buckets by name, in creation order. -/
abbrev CacheStorage := List (String × Cache)

/-- `CACHE_NAME` (sw.js line 1). -/
def CACHE_NAME : String := "fademaster-shell-v1"

/-- `ASSETS` (sw.js lines 2-9). -/
def ASSETS : List String :=
  [ "/", "/index.html", "/manifest.json", "/favicon.ico",
    "/icons/icon-192x192.png", "/icons/icon-512x512.png" ]

/-- `cache.match(url)`: the response of the first entry stored under `url`. -/
def Cache.match (c : Cache) (url : String) : Option Response :=
  (c.find? (fun e => e.1 == url)).map Prod.snd

/-- The bucket after `cache.put(url, res)`. A response with status 206 is refused: the
promise rejects (sw.js does not handle the rejection) and the bucket stays as it was.
Otherwise entries already stored under `url` are removed and the new entry is
appended. Requests are GET requests over http(s), and responses carry no `Vary: *`
header, the other two conditions under which the platform stores. -/
def Cache.put (c : Cache) (url : String) (res : Response) : Cache :=
  if res.status = 206 then c
  else c.filter (fun e => e.1 != url) ++ [(url, res)]

/-- `caches.keys()`. -/
def CacheStorage.keys (cs : CacheStorage) : List String := cs.map Prod.fst

/-- `caches.has(name)`. -/
def CacheStorage.has (cs : CacheStorage) (name : String) : Bool :=
  cs.any (fun b => b.1 == name)

/-- The state of the storage after `caches.open(name)`: a bucket that does not exist
is created empty, last in creation order. -/
def CacheStorage.open (cs : CacheStorage) (name : String) : CacheStorage :=
  if cs.has name then cs else cs ++ [(name, [])]

/-- The bucket called `name`, empty when there is none. -/
def CacheStorage.bucket (cs : CacheStorage) (name : String) : Cache :=
  ((cs.find? (fun b => b.1 == name)).map Prod.snd).getD []

/-- `caches.delete(name)`. -/
def CacheStorage.delete (cs : CacheStorage) (name : String) : CacheStorage :=
  cs.filter (fun b => b.1 != name)

/-- `caches.match(url)`: the buckets are searched in creation order and the first
match is returned. -/
def CacheStorage.match : CacheStorage → String → Option Response
  | [], _ => none
  | (_, c) :: rest, url =>
    match Cache.match c url with
    | some r => some r
    | none => CacheStorage.match rest url

/-- `caches.open(name).then(cache => cache.put(url, res))`: the bucket is opened
(created when absent) and the response put into it. -/
def CacheStorage.openPut (cs : CacheStorage) (name url : String) (res : Response) :
    CacheStorage :=
  (cs.open name).map (fun b => if b.1 == name then (b.1, Cache.put b.2 url res) else b)

/-- The request `cache.addAll` builds from a manifest path. -/
def Request.ofUrl (url : String) : Request :=
  { url := url, mode := "cors", destination := "" }

/-- What `cache.addAll(urls)` fetches: every response, or `none` when one fetch rejects
or answers with a status outside 200-299 or with 206 (then `addAll` rejects and stores
nothing). -/
def fetchAll (net : Network) : List String → Option (List (String × Response))
  | [] => some []
  | u :: us =>
    match net (Request.ofUrl u) with
    | none => none
    | some r =>
      if 200 ≤ r.status ∧ r.status ≤ 299 ∧ r.status ≠ 206 then
        (fetchAll net us).map (fun rs => (u, r) :: rs)
      else none

/-- The install listener (sw.js lines 11-14): the storage afterwards, and whether the
promise given to `waitUntil` resolved (the installation succeeded). -/
def install (net : Network) (cs : CacheStorage) : CacheStorage × Bool :=
  match fetchAll net ASSETS with
  | none => (cs.open CACHE_NAME, false)
  | some rs => (rs.foldl (fun acc e => acc.openPut CACHE_NAME e.1 e.2) (cs.open CACHE_NAME), true)

/-- The activate listener (sw.js lines 16-22), on the cache storage: every key other
than `CACHE_NAME` is deleted. -/
def activate (cs : CacheStorage) : CacheStorage :=
  cs.keys.foldl (fun acc k => if k != CACHE_NAME then acc.delete k else acc) cs

/-- The fetch listener (sw.js lines 24-45): the response handed to `respondWith`
(`none`: no response) and the cache storage once the handler's writes are done. -/
def onFetch (net : Network) (cs : CacheStorage) (req : Request) :
    Option Response × CacheStorage :=
  if req.mode = "navigate" then
    match net req with
    | some res => (some res, cs.openPut CACHE_NAME req.url res)
    | none => (cs.match "/index.html", cs)
  else
    match cs.match req.url with
    | some cached => (some cached, cs)
    | none =>
      match net req with
      | some res =>
        if res.status ≠ 200 ∨ res.type ≠ "basic" then (some res, cs)
        else (some res, cs.openPut CACHE_NAME req.url res)
      | none =>
        if req.destination = "image" then (cs.match "/icons/icon-192x192.png", cs)
        else (none, cs)

/-! ## JSON and `localStorage`

The platform's `JSON.stringify` and `JSON.parse` on the values the store keeps:
`null`, booleans, integer-valued numbers, strings, arrays and objects. Two parts of
JSON lie outside the model and are reported as such by the parser: number literals
with a fraction or an exponent, and `\u` escapes of surrogate code units. Object keys
keep the order of the text (the store uses no integer-like key, which ECMAScript would
move to the front). -/

/-- A JavaScript value that JSON represents. Numbers are the integer-valued ones, which
JavaScript holds exactly and prints in plain decimal up to 2^53. -/
inductive Json where
  | null
  | bool (b : Bool)
  | num (n : Int)
  | str (s : String)
  | arr (items : List Json)
  | obj (fields : List (String × Json))

/-- The result of a parsing step. -/
inductive Parsed (α : Type) where
  /-- A value was read; `rest` is the text after it. -/
  | ok (value : α) (rest : List Char)
  /-- `JSON.parse` throws a `SyntaxError`. -/
  | syntaxError
  /-- The text uses a part of JSON the model leaves out. -/
  | outside

/-- Apply a function to the value read. -/
def Parsed.map {α β : Type} (f : α → β) : Parsed α → Parsed β
  | .ok a rest => .ok (f a) rest
  | .syntaxError => .syntaxError
  | .outside => .outside

/-- The escape of one character inside a JSON string (ECMAScript QuoteJSONString). -/
def quoteChar (c : Char) : List Char :=
  if c = '"' then ['\\', '"']
  else if c = '\\' then ['\\', '\\']
  else if c = '\x08' then ['\\', 'b']
  else if c = '\x0c' then ['\\', 'f']
  else if c = '\n' then ['\\', 'n']
  else if c = '\r' then ['\\', 'r']
  else if c = '\t' then ['\\', 't']
  else if c.toNat < 0x20 then
    ['\\', 'u', '0', '0', Nat.digitChar (c.toNat / 16), Nat.digitChar (c.toNat % 16)]
  else [c]

/-- The characters of a string between its quotes. -/
def quoteBody : List Char → List Char
  | [] => []
  | c :: cs => quoteChar c ++ quoteBody cs

/-- A string as JSON text. -/
def quote (s : String) : List Char := '"' :: (quoteBody s.data ++ ['"'])

/-- An integer in plain decimal. -/
def renderInt (n : Int) : List Char :=
  if n < 0 then '-' :: Nat.toDigits 10 n.natAbs else Nat.toDigits 10 n.natAbs

mutual
/-- The text `JSON.stringify` writes for a value (no indentation). -/
def render : Json → List Char
  | .null => ['n', 'u', 'l', 'l']
  | .bool true => ['t', 'r', 'u', 'e']
  | .bool false => ['f', 'a', 'l', 's', 'e']
  | .num n => renderInt n
  | .str s => quote s
  | .arr [] => ['[', ']']
  | .arr (x :: xs) => '[' :: (render x ++ renderTail xs)
  | .obj [] => ['{', '}']
  | .obj ((k, v) :: kvs) => '{' :: (quote k ++ ':' :: (render v ++ renderFieldsTail kvs))
/-- The text of an array after an element: the later elements and the bracket. -/
def renderTail : List Json → List Char
  | [] => [']']
  | x :: xs => ',' :: (render x ++ renderTail xs)
/-- The text of an object after a member: the later members and the brace. -/
def renderFieldsTail : List (String × Json) → List Char
  | [] => ['}']
  | (k, v) :: kvs => ',' :: (quote k ++ ':' :: (render v ++ renderFieldsTail kvs))
end

/-- `JSON.stringify(value)`. -/
def JSON.stringify (j : Json) : String := String.mk (render j)

/-- JSON white space. -/
def isJsonSpace (c : Char) : Bool := c = ' ' || c = '\t' || c = '\n' || c = '\r'

/-- Skip white space. -/
def skipWs : List Char → List Char
  | [] => []
  | c :: cs => if isJsonSpace c then skipWs cs else c :: cs

/-- The value of a hexadecimal digit. -/
def hexValue (c : Char) : Option Nat :=
  if '0' ≤ c ∧ c ≤ '9' then some (c.toNat - '0'.toNat)
  else if 'a' ≤ c ∧ c ≤ 'f' then some (c.toNat - 'a'.toNat + 10)
  else if 'A' ≤ c ∧ c ≤ 'F' then some (c.toNat - 'A'.toNat + 10)
  else none

/-- The code unit of the four hexadecimal digits of a `\u` escape. -/
def hex4 (a b c d : Char) : Option Nat :=
  match hexValue a, hexValue b, hexValue c, hexValue d with
  | some x, some y, some z, some w => some (((x * 16 + y) * 16 + z) * 16 + w)
  | _, _, _, _ => none

/-- The character of a one-letter escape. -/
def unescape (e : Char) : Option Char :=
  if e = '"' then some '"'
  else if e = '\\' then some '\\'
  else if e = '/' then some '/'
  else if e = 'b' then some '\x08'
  else if e = 'f' then some '\x0c'
  else if e = 'n' then some '\n'
  else if e = 'r' then some '\r'
  else if e = 't' then some '\t'
  else none

/-- Read the characters of a string up to its closing quote. -/
def parseStringBody : List Char → Parsed (List Char)
  | [] => .syntaxError
  | c :: rest =>
    if c = '"' then .ok [] rest
    else if c = '\\' then
      match rest with
      | [] => .syntaxError
      | e :: r =>
        if e = 'u' then
          match r with
          | h1 :: h2 :: h3 :: h4 :: r4 =>
            match hex4 h1 h2 h3 h4 with
            | none => .syntaxError
            | some n =>
              if 0xD800 ≤ n ∧ n ≤ 0xDFFF then .outside
              else (parseStringBody r4).map (fun s => Char.ofNat n :: s)
          | _ => .syntaxError
        else
          match unescape e with
          | none => .syntaxError
          | some ch => (parseStringBody r).map (fun s => ch :: s)
    else if c.toNat < 0x20 then .syntaxError
    else (parseStringBody rest).map (fun s => c :: s)

/-- The value of a decimal digit. -/
def digitValue (c : Char) : Nat := c.toNat - '0'.toNat

/-- Read decimal digits onto `acc`. -/
def scanDigits (acc : Nat) : List Char → Nat × List Char
  | [] => (acc, [])
  | c :: rest =>
    if isAsciiDigit c then scanDigits (acc * 10 + digitValue c) rest else (acc, c :: rest)

/-- The integer part of a JSON number: `0`, or a non-zero digit and more digits. -/
def parseNat : List Char → Parsed Nat
  | [] => .syntaxError
  | c :: rest =>
    if c = '0' then .ok 0 rest
    else if isAsciiDigit c then
      .ok (scanDigits (digitValue c) rest).1 (scanDigits (digitValue c) rest).2
    else .syntaxError

/-- Whether a fraction or an exponent follows the integer part. -/
def startsFraction : List Char → Bool
  | [] => false
  | c :: _ => c = '.' || c = 'e' || c = 'E'

/-- A JSON number. -/
def parseNumber (cs : List Char) : Parsed Int :=
  match cs with
  | [] => .syntaxError
  | c :: rest =>
    if c = '-' then
      match parseNat rest with
      | .ok n r => if startsFraction r then .outside else .ok (-(n : Int)) r
      | .syntaxError => .syntaxError
      | .outside => .outside
    else
      match parseNat (c :: rest) with
      | .ok n r => if startsFraction r then .outside else .ok (n : Int) r
      | .syntaxError => .syntaxError
      | .outside => .outside

/-- Read the exact characters `word`. -/
def expect (word : List Char) (cs : List Char) : Option (List Char) :=
  if word.isPrefixOf cs then some (cs.drop word.length) else none

/-- Set a member of an object: a key already present keeps its place and takes the
new value, a new key goes last. -/
def setField (fields : List (String × Json)) (k : String) (v : Json) :
    List (String × Json) :=
  if fields.any (fun f => f.1 == k) then
    fields.map (fun f => if f.1 == k then (k, v) else f)
  else fields ++ [(k, v)]

/-- The object of the members read, first to last. -/
def buildObject (raw : List (String × Json)) : List (String × Json) :=
  raw.foldl (fun acc f => setField acc f.1 f.2) []

mutual
/-- Read a value. The first argument bounds the depth of the recursion; the text's
length is enough. -/
def parseValue : Nat → List Char → Parsed Json
  | 0, _ => .outside
  | fuel + 1, cs =>
    match skipWs cs with
    | [] => .syntaxError
    | c :: rest =>
      if c = '-' ∨ isAsciiDigit c = true then (parseNumber (c :: rest)).map Json.num
      else if c = '"' then (parseStringBody rest).map (fun s => Json.str (String.mk s))
      else if c = '[' then
        match skipWs rest with
        | [] => .syntaxError
        | d :: rest2 =>
          if d = ']' then .ok (Json.arr []) rest2
          else (parseElems fuel (d :: rest2)).map Json.arr
      else if c = '{' then
        match skipWs rest with
        | [] => .syntaxError
        | d :: rest2 =>
          if d = '}' then .ok (Json.obj []) rest2
          else (parseMembers fuel (d :: rest2)).map (fun raw => Json.obj (buildObject raw))
      else if c = 'n' then
        match expect ['u', 'l', 'l'] rest with
        | some r => .ok Json.null r
        | none => .syntaxError
      else if c = 't' then
        match expect ['r', 'u', 'e'] rest with
        | some r => .ok (Json.bool true) r
        | none => .syntaxError
      else if c = 'f' then
        match expect ['a', 'l', 's', 'e'] rest with
        | some r => .ok (Json.bool false) r
        | none => .syntaxError
      else .syntaxError
/-- Read the elements of a non-empty array and its closing bracket. -/
def parseElems : Nat → List Char → Parsed (List Json)
  | 0, _ => .outside
  | fuel + 1, cs =>
    match parseValue fuel cs with
    | .ok v r1 =>
      match skipWs r1 with
      | [] => .syntaxError
      | c :: r2 =>
        if c = ',' then (parseElems fuel r2).map (fun vs => v :: vs)
        else if c = ']' then .ok [v] r2
        else .syntaxError
    | .syntaxError => .syntaxError
    | .outside => .outside
/-- Read the members of a non-empty object and its closing brace. -/
def parseMembers : Nat → List Char → Parsed (List (String × Json))
  | 0, _ => .outside
  | fuel + 1, cs =>
    match skipWs cs with
    | [] => .syntaxError
    | q :: r0 =>
      if q = '"' then
        match parseStringBody r0 with
        | .ok k r1 =>
          match skipWs r1 with
          | [] => .syntaxError
          | colon :: r2 =>
            if colon = ':' then
              match parseValue fuel r2 with
              | .ok v r3 =>
                match skipWs r3 with
                | [] => .syntaxError
                | c :: r4 =>
                  if c = ',' then
                    (parseMembers fuel r4).map (fun kvs => (String.mk k, v) :: kvs)
                  else if c = '}' then .ok [(String.mk k, v)] r4
                  else .syntaxError
              | .syntaxError => .syntaxError
              | .outside => .outside
            else .syntaxError
        | .syntaxError => .syntaxError
        | .outside => .outside
      else .syntaxError
end

/-- What `JSON.parse` does with a text. -/
inductive ParseOutcome where
  /-- It returns the value. -/
  | value (j : Json)
  /-- It throws a `SyntaxError`. -/
  | syntaxError
  /-- The text uses a part of JSON the model leaves out. -/
  | outside

/-- `JSON.parse(text)`: one value, white space around it allowed, nothing after. -/
def JSON.parse (text : String) : ParseOutcome :=
  match parseValue (text.data.length + 1) text.data with
  | .ok j rest =>
    match skipWs rest with
    | [] => .value j
    | _ :: _ => .syntaxError
  | .syntaxError => .syntaxError
  | .outside => .outside
mutual
/-- The number of nodes of a value, list cells included. -/
def Json.size : Json → Nat
  | .arr xs => 1 + Json.sizeList xs
  | .obj kvs => 1 + Json.sizeFields kvs
  | _ => 1
/-- The nodes of the elements of an array. -/
def Json.sizeList : List Json → Nat
  | [] => 0
  | x :: xs => 1 + Json.size x + Json.sizeList xs
/-- The nodes of the members of an object. -/
def Json.sizeFields : List (String × Json) → Nat
  | [] => 0
  | (_, v) :: kvs => 1 + Json.size v + Json.sizeFields kvs
end

mutual
/-- The values a JavaScript program can hold: no object has the same key twice. -/
def Json.wellFormed : Json → Bool
  | .arr xs => Json.wellFormedList xs
  | .obj kvs => decide (kvs.map Prod.fst).Nodup && Json.wellFormedFields kvs
  | _ => true
/-- Every element is well formed. -/
def Json.wellFormedList : List Json → Bool
  | [] => true
  | x :: xs => Json.wellFormed x && Json.wellFormedList xs
/-- Every member's value is well formed. -/
def Json.wellFormedFields : List (String × Json) → Bool
  | [] => true
  | (_, v) :: kvs => Json.wellFormed v && Json.wellFormedFields kvs
end

/-- A text that may follow a value: nothing, a comma, or a closing bracket or
brace. -/
def isDelimited : List Char → Bool
  | [] => true
  | c :: _ => c = ',' || c = ']' || c = '}'

/-- `STORAGE.BOOKINGS` (App.js line 15). -/
def STORAGE.BOOKINGS : String := "fm_bookings_v1"

/-- `STORAGE.THEME` (App.js line 16). -/
def STORAGE.THEME : String := "fm_theme_v1"

/-- `STORAGE.SERVICES` (App.js line 17). -/
def STORAGE.SERVICES : String := "fm_services_v1"

/-- The content of `localStorage`: the string kept under each key, `none` for the
`null` of an absent key. -/
abbrev LocalStorage := String → Option String

/-- `localStorage.getItem(key)`. -/
def LocalStorage.getItem (ls : LocalStorage) (key : String) : Option String := ls key

/-- The storage after `localStorage.setItem(key, value)`; the write is taken to succeed
(no quota failure). -/
def LocalStorage.setItem (ls : LocalStorage) (key value : String) : LocalStorage :=
  fun q => if q = key then some value else ls q

/-- The JavaScript object of a booking, keys in the order of the literal of `submit`
(which `{...b, status: "completed"}` keeps). -/
def Booking.toJson (b : Booking) : Json :=
  .obj [ ("id", .str b.id), ("name", .str b.name), ("phone", .str b.phone),
         ("datetime", .str b.datetime), ("serviceId", .str b.serviceId),
         ("serviceName", .str b.serviceName), ("price", .num b.price),
         ("notes", .str b.notes), ("status", .str b.status),
         ("createdAt", .str b.createdAt) ]

/-- The JavaScript object of a service, its keys in the order the object was built
with: `id` first for the literals of `DEFAULT_SERVICES`, `id` last for the object
`{...s, id: id("s_")}` of `addService`. -/
def Service.toJson (s : Service) : Json :=
  if s.idLast then
    .obj [ ("name", .str s.name), ("price", .num s.price), ("minutes", .num s.minutes),
           ("id", .str s.id) ]
  else
    .obj [ ("id", .str s.id), ("name", .str s.name), ("price", .num s.price),
           ("minutes", .num s.minutes) ]

/-- The JavaScript array of the booking collection. -/
def bookingsValue (bs : List Booking) : Json := .arr (bs.map Booking.toJson)

/-- The JavaScript array of the service collection. -/
def servicesValue (ss : List Service) : Json := .arr (ss.map Service.toJson)

/-- JavaScript truthiness, as the operator `||` tests it. -/
def Json.truthy : Json → Bool
  | .null => false
  | .bool b => b
  | .num n => n != 0
  | .str s => s != ""
  | .arr _ => true
  | .obj _ => true

/-- `item || fallback` for the result of `getItem`: `null` and the empty string are
falsy. -/
def orDefault (item : Option String) (fallback : String) : String :=
  match item with
  | some s => if s = "" then fallback else s
  | none => fallback

/-- The initialiser of the `bookings` state (App.js lines 246-248): the parsed value,
`[]` when `JSON.parse` throws; `none` when the stored text lies outside the model. -/
def loadBookings (ls : LocalStorage) : Option Json :=
  match JSON.parse (orDefault (ls.getItem STORAGE.BOOKINGS) "[]") with
  | .value j => some j
  | .syntaxError => some (.arr [])
  | .outside => none

/-- The initialiser of the `services` state (App.js lines 252-254): the parsed value
when it is truthy, `DEFAULT_SERVICES` when it is falsy or `JSON.parse` throws; `none`
when the stored text lies outside the model. -/
def loadServices (ls : LocalStorage) : Option Json :=
  match JSON.parse (orDefault (ls.getItem STORAGE.SERVICES) "null") with
  | .value j => some (if j.truthy then j else servicesValue DEFAULT_SERVICES)
  | .syntaxError => some (servicesValue DEFAULT_SERVICES)
  | .outside => none

/-- The effect of line 249: `setItem(STORAGE.BOOKINGS, JSON.stringify(bookings))`. -/
def persistBookings (st : AppState) (ls : LocalStorage) : LocalStorage :=
  ls.setItem STORAGE.BOOKINGS (JSON.stringify (bookingsValue st.bookings))

/-- The effect of line 255: `setItem(STORAGE.SERVICES, JSON.stringify(services))`. -/
def persistServices (st : AppState) (ls : LocalStorage) : LocalStorage :=
  ls.setItem STORAGE.SERVICES (JSON.stringify (servicesValue st.services))

/-- The mutating operations of the store. -/
inductive StoreOp where
  | book (bk : Booking)
  | complete (bid : String)
  | delete (bid : String)
  | addService (s : ServiceInput) (now : Int) (rnd : String)
  | removeService (sid : String)

/-- The state update of an operation. -/
def StoreOp.apply : StoreOp → AppState → AppState
  | .book bk, st => handleBook bk st
  | .complete bid, st => handleComplete bid st
  | .delete bid, st => handleDelete bid st
  | .addService s now rnd, st => Barber.addService s now rnd st
  | .removeService sid, st => Barber.removeService sid st

/-- Whether the operation replaces the `bookings` array (otherwise it replaces the
`services` array). -/
def StoreOp.onBookings : StoreOp → Bool
  | .book _ => true
  | .complete _ => true
  | .delete _ => true
  | .addService _ _ _ => false
  | .removeService _ => false

/-- One operation on the running app: the state update, then the effect whose
dependency was replaced rewrites its key. -/
def dispatch (op : StoreOp) (st : AppState) (ls : LocalStorage) : AppState × LocalStorage :=
  if op.onBookings then (op.apply st, persistBookings (op.apply st) ls)
  else (op.apply st, persistServices (op.apply st) ls)

/-! ## The validation rules as the specification words them -/

/-- The six rules of booking creation, in the order of the specification. -/
inductive Rule where
  | name
  | phone
  | datePresent
  | timePresent
  | parseable
  | notPast
  deriving DecidableEq, Repr

/-- The position of a rule in the validation order. -/
def Rule.index : Rule → Nat
  | .name => 0
  | .phone => 1
  | .datePresent => 2
  | .timePresent => 3
  | .parseable => 4
  | .notPast => 5

/-- The message that names a rule. -/
def Rule.message : Rule → String
  | .name => "Please enter your name"
  | .phone => "Enter a valid phone (digits, optional +)"
  | .datePresent => "Select a date"
  | .timePresent => "Select a time"
  | .parseable => "Invalid date/time"
  | .notPast => "Cannot book in the past"

/-- A phone as the specification words it: an optional `+` followed by 7 to 15
digits. -/
def SpecPhone (s : String) : Prop :=
  ∃ ds : List Char, (s.data = ds ∨ s.data = '+' :: ds) ∧
    7 ≤ ds.length ∧ ds.length ≤ 15 ∧ ∀ c ∈ ds, '0' ≤ c ∧ c ≤ '9'

/-- What each rule asks of the input, as the specification words it. -/
def Rule.Holds (env : SubmitEnv) (form : Form) : Rule → Prop
  | .name => jsTrim form.name ≠ ""
  | .phone => SpecPhone (jsTrim form.phone)
  | .datePresent => form.date ≠ ""
  | .timePresent => form.time ≠ ""
  | .parseable => ∃ d, env.parseDate (form.date ++ "T" ++ form.time) = some d
  | .notPast => ∀ d, env.parseDate (form.date ++ "T" ++ form.time) = some d → ¬ d < env.nowCheck

/-- The rule `r` is the first that fails: it fails and every earlier rule holds. -/
def FirstFailing (env : SubmitEnv) (form : Form) (r : Rule) : Prop :=
  ¬ r.Holds env form ∧ ∀ q : Rule, q.index < r.index → q.Holds env form

/-- An input that passes all six rules. -/
def ValidInput (env : SubmitEnv) (form : Form) : Prop :=
  ∀ r : Rule, r.Holds env form

/-- The invariant of a booking as the specification words it: `datetime` parses to a
valid instant, and that instant is not strictly earlier than the creation instant. -/
def BookingInvariant (parseDate : String → Option Int) (b : Booking) : Prop :=
  ∃ d, parseDate b.datetime = some d ∧ ∀ c, parseDate b.createdAt = some c → ¬ d < c

/-- A later change of the service collection. -/
inductive ServiceOp where
  | add (s : ServiceInput) (now : Int) (rnd : String)
  | remove (sid : String)
  deriving DecidableEq, Repr

/-- Apply `addService` or `removeService`. -/
def ServiceOp.apply : ServiceOp → AppState → AppState
  | .add s now rnd, st => addService s now rnd st
  | .remove sid, st => removeService sid st

/-- Apply a sequence of service changes, first to last. -/
def runServiceOps (ops : List ServiceOp) (st : AppState) : AppState :=
  ops.foldl (fun acc op => op.apply acc) st

/-- Every path of the manifest has an entry in the bucket `CACHE_NAME`. -/
def ShellCached (cs : CacheStorage) : Prop :=
  ∀ u ∈ ASSETS, ∃ r, Cache.match (cs.bucket CACHE_NAME) u = some r

/-- The cache states reached after an installation: the state a successful `install`
leaves, and every state the fetch and activate listeners make of such a state. -/
inductive AfterInstall : CacheStorage → Prop where
  | installed (net : Network) (cs cs2 : CacheStorage) :
      install net cs = (cs2, true) → AfterInstall cs2
  | fetched (net : Network) (cs : CacheStorage) (req : Request) :
      AfterInstall cs → AfterInstall (onFetch net cs req).2
  | activated (cs : CacheStorage) : AfterInstall cs → AfterInstall (activate cs)

/-! ## Sample platform and inputs

A fragment of a browser whose local time zone is UTC: the readings of `Date` on the
few strings and instants the examples below use. -/

/-- The instant 2030-01-01T10:00:00.000Z. -/
def tenOClock : Int := 1893492000000

/-- The `Date` constructor on the strings of the examples. -/
def sampleParse (s : String) : Option Int :=
  if s = "2030-01-01T10:00" then some tenOClock
  else if s = "2030-01-01T10:00:00.000Z" then some tenOClock
  else if s = "2030-01-01T10:00:00.001Z" then some (tenOClock + 1)
  else if s = "2030-01-01T09:00:00.000Z" then some (tenOClock - 3600000)
  else none

/-- The ISO rendering of the instants of the examples. -/
def sampleISO (t : Int) : String :=
  if t = tenOClock then "2030-01-01T10:00:00.000Z"
  else if t = tenOClock + 1 then "2030-01-01T10:00:00.001Z"
  else if t = tenOClock - 3600000 then "2030-01-01T09:00:00.000Z"
  else ""

/-- A run of `submit` whose clock reads `t1` at the past check and `t2` at
`createdAt`. -/
def sampleEnv (t1 t2 : Int) : SubmitEnv :=
  { parseDate := sampleParse, toISOString := sampleISO,
    nowCheck := t1, nowId := t1, random := "k3f9", nowCreated := t2 }

/-- The platform when the clock reads 2030-01-01T09:00:00.000Z throughout. -/
def nineEnv : SubmitEnv := sampleEnv (tenOClock - 3600000) (tenOClock - 3600000)

/-- The form the "Quick Fill" button writes (App.js lines 151-154), for the date
2030-01-01 and the service `sid`. -/
def quickFill (sid : String) : Form :=
  { name := "John Doe", phone := "+2348012345678", date := "2030-01-01",
    time := "10:00", serviceId := sid, notes := "" }

/-- An `App` state with the default services and no booking. -/
def freshApp : AppState :=
  { theme := "dark", bookings := [], services := DEFAULT_SERVICES }

/-- The service of the example scenario of the specification. -/
def shave : ServiceInput := { name := "Shave", price := 1200, minutes := 20 }

/-- The `App` state after `addService(shave)` on the default services. -/
def shaveApp : AppState := addService shave 1893400000000 "x7qa" freshApp

/-- The id `addService` gave to the service of the example. -/
def shaveId : String := id "s_" 1893400000000 "x7qa"

/-- An `App` state whose services have all been removed. -/
def noServiceApp : AppState := { theme := "dark", bookings := [], services := [] }

/-- The booking `submit` builds from the quick-fill form for the service "s1" when
the clock reads 09:00 throughout. -/
def sampleBooking : Booking :=
  { id := id "b_" (tenOClock - 3600000) "k3f9", name := "John Doe",
    phone := "+2348012345678", datetime := "2030-01-01T10:00:00.000Z", serviceId := "s1",
    serviceName := "Haircut", price := 2000, notes := "", status := "upcoming",
    createdAt := "2030-01-01T09:00:00.000Z" }

/-- A network that answers every request with a same-origin 200 response. -/
def onlineNet : Network :=
  fun req => some { status := 200, type := "basic", body := "body of " ++ req.url }

/-- A network on which every fetch fails. -/
def offlineNet : Network := fun _ => none

/-- A network that answers every request with a partial (206) response. -/
def partialNet : Network :=
  fun _ => some { status := 206, type := "basic", body := "first bytes" }

/-- The cache storage a successful first installation leaves. -/
def installedCaches : CacheStorage := (install onlineNet []).1

/-- A page navigation. -/
def navRequest : Request := { url := "/bookings", mode := "navigate", destination := "document" }

/-- A request for an image that is not part of the manifest. -/
def imageRequest : Request := { url := "/logo.png", mode := "no-cors", destination := "image" }

/-! ## Booking creation: lemmas -/

theorem isAsciiDigit_iff (c : Char) : isAsciiDigit c = true ↔ '0' ≤ c ∧ c ≤ '9' := by
  simp [isAsciiDigit]

theorem digitsToEnd_iff (cs : List Char) :
    digitsToEnd cs = true ↔ 7 ≤ cs.length ∧ cs.length ≤ 15 ∧ ∀ c ∈ cs, '0' ≤ c ∧ c ≤ '9' := by
  simp [digitsToEnd, isAsciiDigit_iff, and_assoc]

/-- The regular expression of line 91 accepts exactly the phones of the
specification. -/
theorem phoneRegexTest_iff (s : String) : phoneRegexTest s = true ↔ SpecPhone s := by
  unfold phoneRegexTest SpecPhone
  cases hs : s.data with
  | nil =>
    simp only [digitsToEnd_iff]
    constructor
    · intro h; simp at h
    · rintro ⟨ds, hds | hds, h7, -, -⟩
      · subst hds; simp at h7
      · cases hds
  | cons c rest =>
    simp only [Bool.or_eq_true, Bool.and_eq_true, beq_iff_eq, digitsToEnd_iff]
    constructor
    · rintro (⟨hc, h⟩ | h)
      · exact ⟨rest, Or.inr (by rw [hc]), h⟩
      · exact ⟨c :: rest, Or.inl rfl, h⟩
    · rintro ⟨ds, hds | hds, h⟩
      · subst hds; exact Or.inr h
      · cases hds; exact Or.inl ⟨rfl, h⟩

theorem validate_eq_none_iff (form : Form) :
    validate form = none ↔
      jsTrim form.name ≠ "" ∧ phoneRegexTest (jsTrim form.phone) = true ∧
        form.date ≠ "" ∧ form.time ≠ "" := by
  unfold validate
  by_cases h1 : jsTrim form.name = "" <;> by_cases h2 : phoneRegexTest (jsTrim form.phone) = true <;>
    by_cases h3 : form.date = "" <;> by_cases h4 : form.time = "" <;> simp [h1, h2, h3, h4]

theorem submit_of_valid (env : SubmitEnv) (services : List Service) (form : Form)
    (hv : ValidInput env form) :
    ∃ d, env.parseDate (form.date ++ "T" ++ form.time) = some d ∧ env.nowCheck ≤ d ∧
      submit env services form =
        match services.find? (fun s => s.id == form.serviceId) with
        | none => .typeError
        | some svc =>
          .booked
            { id := id "b_" env.nowId env.random
              name := jsTrim form.name
              phone := jsTrim form.phone
              datetime := env.toISOString d
              serviceId := svc.id
              serviceName := svc.name
              price := svc.price
              notes := form.notes
              status := "upcoming"
              createdAt := env.toISOString env.nowCreated } := by
  have h1 : jsTrim form.name ≠ "" := hv .name
  have h2 : phoneRegexTest (jsTrim form.phone) = true := (phoneRegexTest_iff _).2 (hv .phone)
  have h3 : form.date ≠ "" := hv .datePresent
  have h4 : form.time ≠ "" := hv .timePresent
  obtain ⟨d, hd⟩ : ∃ d, env.parseDate (form.date ++ "T" ++ form.time) = some d := hv .parseable
  have h6 : ¬ d < env.nowCheck := hv .notPast d hd
  have hval : validate form = none := (validate_eq_none_iff form).2 ⟨h1, h2, h3, h4⟩
  refine ⟨d, hd, not_lt.1 h6, ?_⟩
  simp only [submit, hval, hd, if_neg h6]

theorem submit_booked_inv (env : SubmitEnv) (services : List Service) (form : Form)
    (b : Booking) (h : submit env services form = .booked b) :
    ∃ d svc, env.parseDate (form.date ++ "T" ++ form.time) = some d ∧ env.nowCheck ≤ d ∧
      services.find? (fun s => s.id == form.serviceId) = some svc ∧
      b = { id := id "b_" env.nowId env.random
            name := jsTrim form.name
            phone := jsTrim form.phone
            datetime := env.toISOString d
            serviceId := svc.id
            serviceName := svc.name
            price := svc.price
            notes := form.notes
            status := "upcoming"
            createdAt := env.toISOString env.nowCreated } := by
  unfold submit at h
  split at h
  · cases h
  · split at h
    · cases h
    · rename_i d hd
      split at h
      · cases h
      · rename_i hlt
        split at h
        · cases h
        · rename_i svc hsvc
          injection h with h
          exact ⟨d, svc, hd, not_lt.1 hlt, hsvc, h.symm⟩

/-! ## Booking creation: the claims -/

/-- C1. The rules are checked in the order name, phone, date present, time present,
date and time parseable, not in the past: when `r` is the first rule that fails,
`submit` ends with exactly the message of `r` as its error, `onBook` is not called and
the booking collection (the whole `App` state) is unchanged. -/
theorem submit_rejects_with_first_failing_rule (env : SubmitEnv) (form : Form)
    (st : AppState) (r : Rule) (hr : FirstFailing env form r) :
    submit env st.services form = .rejected r.message ∧
      (submit env st.services form).error = r.message ∧
      pressBook env form st = st := by
  have key : submit env st.services form = .rejected r.message := by
    obtain ⟨hfail, hprev⟩ := hr
    cases r with
    | name =>
      have h1 : jsTrim form.name = "" := not_not.1 hfail
      simp [submit, validate, h1, Rule.message]
    | phone =>
      have h1 : jsTrim form.name ≠ "" := hprev .name (by decide)
      have h2 : phoneRegexTest (jsTrim form.phone) = false := by
        rw [← Bool.not_eq_true]
        exact fun h => hfail ((phoneRegexTest_iff _).1 h)
      simp [submit, validate, h1, h2, Rule.message]
    | datePresent =>
      have h1 : jsTrim form.name ≠ "" := hprev .name (by decide)
      have h2 : phoneRegexTest (jsTrim form.phone) = true :=
        (phoneRegexTest_iff _).2 (hprev .phone (by decide))
      have h3 : form.date = "" := not_not.1 hfail
      simp [submit, validate, h1, h2, h3, Rule.message]
    | timePresent =>
      have h1 : jsTrim form.name ≠ "" := hprev .name (by decide)
      have h2 : phoneRegexTest (jsTrim form.phone) = true :=
        (phoneRegexTest_iff _).2 (hprev .phone (by decide))
      have h3 : form.date ≠ "" := hprev .datePresent (by decide)
      have h4 : form.time = "" := not_not.1 hfail
      simp [submit, validate, h1, h2, h3, h4, Rule.message]
    | parseable =>
      have h1 : jsTrim form.name ≠ "" := hprev .name (by decide)
      have h2 : phoneRegexTest (jsTrim form.phone) = true :=
        (phoneRegexTest_iff _).2 (hprev .phone (by decide))
      have h3 : form.date ≠ "" := hprev .datePresent (by decide)
      have h4 : form.time ≠ "" := hprev .timePresent (by decide)
      have hval : validate form = none := (validate_eq_none_iff form).2 ⟨h1, h2, h3, h4⟩
      have h5 : env.parseDate (form.date ++ "T" ++ form.time) = none := by
        cases hp : env.parseDate (form.date ++ "T" ++ form.time) with
        | none => rfl
        | some d => exact absurd ⟨d, hp⟩ hfail
      simp only [submit, hval, h5, Rule.message]
    | notPast =>
      have h1 : jsTrim form.name ≠ "" := hprev .name (by decide)
      have h2 : phoneRegexTest (jsTrim form.phone) = true :=
        (phoneRegexTest_iff _).2 (hprev .phone (by decide))
      have h3 : form.date ≠ "" := hprev .datePresent (by decide)
      have h4 : form.time ≠ "" := hprev .timePresent (by decide)
      have hval : validate form = none := (validate_eq_none_iff form).2 ⟨h1, h2, h3, h4⟩
      obtain ⟨d, hd⟩ : ∃ d, env.parseDate (form.date ++ "T" ++ form.time) = some d :=
        hprev .parseable (by decide)
      have h6 : d < env.nowCheck := by
        by_contra hge
        exact hfail (fun d2 hd2 => by rw [hd] at hd2; cases hd2; exact hge)
      simp only [submit, hval, hd, if_pos h6, Rule.message]
  refine ⟨key, ?_, ?_⟩
  · rw [key]; rfl
  · simp only [pressBook, key]

/-- C1, at a concrete input: the quick-fill form for 2030-01-01 10:00 submitted one
millisecond after that instant passes the first five rules and is rejected as being in
the past. -/
theorem submit_rejects_with_first_failing_rule_witness :
    FirstFailing (sampleEnv (tenOClock + 1) (tenOClock + 1)) (quickFill "s1") .notPast ∧
      (submit (sampleEnv (tenOClock + 1) (tenOClock + 1)) freshApp.services (quickFill "s1") =
          .rejected "Cannot book in the past" ∧
        (submit (sampleEnv (tenOClock + 1) (tenOClock + 1)) freshApp.services
            (quickFill "s1")).error = "Cannot book in the past" ∧
        pressBook (sampleEnv (tenOClock + 1) (tenOClock + 1)) (quickFill "s1") freshApp =
          freshApp) :=
  have hff : FirstFailing (sampleEnv (tenOClock + 1) (tenOClock + 1)) (quickFill "s1")
      .notPast := by
    refine ⟨fun h => h tenOClock (by decide) (by decide), fun q hq => ?_⟩
    cases q with
    | name => exact (by decide : jsTrim "John Doe" ≠ "")
    | phone => exact (phoneRegexTest_iff _).1 (by decide)
    | datePresent => exact (by decide : ("2030-01-01" : String) ≠ "")
    | timePresent => exact (by decide : ("10:00" : String) ≠ "")
    | parseable => exact ⟨tenOClock, by decide⟩
    | notPast => exact absurd hq (by decide)
  ⟨hff, submit_rejects_with_first_failing_rule _ _ _ _ hff⟩

theorem runServiceOps_bookings (ops : List ServiceOp) (st : AppState) :
    (runServiceOps ops st).bookings = st.bookings := by
  unfold runServiceOps
  induction ops generalizing st with
  | nil => rfl
  | cons op ops ih =>
    rw [List.foldl_cons, ih]
    cases op <;> rfl

theorem quickFill_valid (sid : String) (t1 t2 : Int) (ht : t1 ≤ tenOClock) :
    ValidInput (sampleEnv t1 t2) (quickFill sid) := by
  intro r
  cases r with
  | name => exact (by decide : jsTrim "John Doe" ≠ "")
  | phone =>
    exact (phoneRegexTest_iff _).1 (by decide : phoneRegexTest (jsTrim "+2348012345678") = true)
  | datePresent => exact (by decide : ("2030-01-01" : String) ≠ "")
  | timePresent => exact (by decide : ("10:00" : String) ≠ "")
  | parseable => exact ⟨tenOClock, (by decide : sampleParse "2030-01-01T10:00" = some tenOClock)⟩
  | notPast =>
    intro d hd
    have : d = tenOClock := by
      have h2 : sampleParse "2030-01-01T10:00" = some tenOClock := by decide
      have h3 : sampleParse "2030-01-01T10:00" = some d := hd
      rw [h2] at h3
      exact (Option.some.inj h3).symm
    rw [this]
    exact not_lt.2 ht

/-- C2, the code at a failing input: with every service removed, the quick-fill form
passes all six rules, no service has its (empty) `serviceId`, and `submit` ends in the
`TypeError` of reading `svc.id`: no "service not found" error is set (the error state
stays empty), and no booking is passed to `onBook`. -/
theorem submit_unresolved_service_throws :
    ValidInput (nineEnv) (quickFill "") ∧
      noServiceApp.services.find? (fun s => s.id == (quickFill "").serviceId) = none ∧
      submit (nineEnv) noServiceApp.services
        (quickFill "") = .typeError ∧
      (submit (nineEnv) noServiceApp.services
        (quickFill "")).error = "" ∧
      pressBook (nineEnv) (quickFill "")
        noServiceApp = noServiceApp :=
  ⟨quickFill_valid _ _ _ (by decide), by decide, by decide, by decide, by decide⟩

/-- C3, refuted as stated: the clock reads 10:00:00.000 at the past check and
10:00:00.001 at `createdAt` (non-decreasing readings); the form for 10:00 is booked,
and the booking's `datetime` is one millisecond earlier than its `createdAt`. -/
theorem submit_datetime_before_createdAt :
    (sampleEnv tenOClock (tenOClock + 1)).nowCheck ≤
        (sampleEnv tenOClock (tenOClock + 1)).nowCreated ∧
      ∃ b, submit (sampleEnv tenOClock (tenOClock + 1)) freshApp.services (quickFill "s1") =
          .booked b ∧
        b.datetime = "2030-01-01T10:00:00.000Z" ∧
        b.createdAt = "2030-01-01T10:00:00.001Z" ∧
        ¬ BookingInvariant (sampleEnv tenOClock (tenOClock + 1)).parseDate b := by
  refine ⟨by decide, _, rfl, by decide, by decide, ?_⟩
  rintro ⟨d, hd, hc⟩
  have hd2 : sampleParse "2030-01-01T10:00:00.000Z" = some d := hd
  have hd3 : d = tenOClock := by
    have h2 : sampleParse "2030-01-01T10:00:00.000Z" = some tenOClock := by decide
    rw [h2] at hd2
    exact (Option.some.inj hd2).symm
  subst hd3
  exact hc (tenOClock + 1) (by decide) (by decide)

/-- C3, amended. Every booking `submit` passes to `onBook` has as `datetime` the ISO
rendering of the valid instant `d` parsed from the form, `d` is not strictly earlier
than the reading `nowCheck` of the past check, and `createdAt` is the ISO rendering of
the later reading `nowCreated`. On a platform where an ISO rendering parses back to its
instant, `datetime` parses to `d`, and the booking is not earlier than its creation
exactly when `nowCreated ≤ d` (so whenever the two readings are equal). -/
theorem submit_datetime_not_before_check (env : SubmitEnv) (services : List Service)
    (form : Form) (b : Booking) (h : submit env services form = .booked b) :
    ∃ d, env.parseDate (form.date ++ "T" ++ form.time) = some d ∧
      b.datetime = env.toISOString d ∧ env.nowCheck ≤ d ∧
      b.createdAt = env.toISOString env.nowCreated ∧
      ((∀ x, env.parseDate (env.toISOString x) = some x) →
        env.parseDate b.datetime = some d ∧
        (BookingInvariant env.parseDate b ↔ env.nowCreated ≤ d) ∧
        (env.nowCreated = env.nowCheck → BookingInvariant env.parseDate b)) := by
  obtain ⟨d, svc, hd, hge, -, hb⟩ := submit_booked_inv env services form b h
  subst hb
  refine ⟨d, hd, rfl, hge, rfl, fun law => ?_⟩
  have hiff : BookingInvariant env.parseDate
      { id := id "b_" env.nowId env.random, name := jsTrim form.name,
        phone := jsTrim form.phone, datetime := env.toISOString d, serviceId := svc.id,
        serviceName := svc.name, price := svc.price, notes := form.notes,
        status := "upcoming", createdAt := env.toISOString env.nowCreated } ↔
      env.nowCreated ≤ d := by
    unfold BookingInvariant
    simp only [law, Option.some.injEq, exists_eq_left', forall_eq', not_lt]
  exact ⟨law d, hiff, fun heq => hiff.2 (heq ▸ hge)⟩

/-- C3 amended, at a concrete input: the quick-fill form submitted at 09:00 is booked
for 10:00. -/
theorem submit_datetime_not_before_check_witness :
    submit nineEnv freshApp.services (quickFill "s1") = .booked sampleBooking ∧
      ∃ d, nineEnv.parseDate ((quickFill "s1").date ++ "T" ++ (quickFill "s1").time) = some d ∧
        sampleBooking.datetime = nineEnv.toISOString d ∧ nineEnv.nowCheck ≤ d ∧
        sampleBooking.createdAt = nineEnv.toISOString nineEnv.nowCreated ∧
        ((∀ x, nineEnv.parseDate (nineEnv.toISOString x) = some x) →
          nineEnv.parseDate sampleBooking.datetime = some d ∧
          (BookingInvariant nineEnv.parseDate sampleBooking ↔ nineEnv.nowCreated ≤ d) ∧
          (nineEnv.nowCreated = nineEnv.nowCheck →
            BookingInvariant nineEnv.parseDate sampleBooking)) :=
  ⟨by decide,
    submit_datetime_not_before_check nineEnv freshApp.services (quickFill "s1") sampleBooking
      (by decide)⟩

/-- C4. A valid input whose `serviceId` resolves (by `services.find`) to the service
`s` is booked, and the booking has status "upcoming" and carries the id, name and
price of `s`; after any later sequence of `addService` and `removeService` calls the
booking collection is still that booking followed by the earlier ones, so its
`serviceName` and `price` are unchanged. -/
theorem booking_snapshots_service (env : SubmitEnv) (form : Form) (st : AppState)
    (s : Service) (hv : ValidInput env form)
    (hs : st.services.find? (fun x => x.id == form.serviceId) = some s) :
    ∃ b, submit env st.services form = .booked b ∧
      b.status = "upcoming" ∧ b.serviceId = s.id ∧ s.id = form.serviceId ∧
      b.serviceName = s.name ∧ b.price = s.price ∧
      (pressBook env form st).bookings = b :: st.bookings ∧
      ∀ ops : List ServiceOp,
        (runServiceOps ops (pressBook env form st)).bookings = b :: st.bookings := by
  obtain ⟨d, -, -, hsub⟩ := submit_of_valid env st.services form hv
  rw [hs] at hsub
  have hid : s.id = form.serviceId := by
    have := List.find?_some hs
    simpa using this
  have hpress : (pressBook env form st).bookings =
      { id := id "b_" env.nowId env.random, name := jsTrim form.name,
        phone := jsTrim form.phone, datetime := env.toISOString d, serviceId := s.id,
        serviceName := s.name, price := s.price, notes := form.notes,
        status := "upcoming", createdAt := env.toISOString env.nowCreated } :: st.bookings := by
    simp only [pressBook, hsub, handleBook]
  refine ⟨_, hsub, rfl, rfl, hid, rfl, rfl, hpress, fun ops => ?_⟩
  rw [runServiceOps_bookings, hpress]

/-- C4, the scenario of the specification: the service Shave (1200, 20 minutes) is
added, booked at a future date and then removed; the booking keeps price 1200 and
service name "Shave". -/
theorem booking_snapshots_service_witness :
    ValidInput (nineEnv) (quickFill shaveId) ∧
      shaveApp.services.find? (fun x => x.id == (quickFill shaveId).serviceId) =
        some { id := shaveId, name := "Shave", price := 1200, minutes := 20,
               idLast := true } ∧
      ∃ b, submit (nineEnv) shaveApp.services
          (quickFill shaveId) = .booked b ∧
        b.status = "upcoming" ∧ b.serviceId = shaveId ∧
        shaveId = (quickFill shaveId).serviceId ∧
        b.serviceName = "Shave" ∧ b.price = 1200 ∧
        (pressBook (nineEnv)
          (quickFill shaveId) shaveApp).bookings = b :: shaveApp.bookings ∧
        ∀ ops : List ServiceOp,
          (runServiceOps ops
            (pressBook (nineEnv)
              (quickFill shaveId) shaveApp)).bookings = b :: shaveApp.bookings :=
  ⟨quickFill_valid _ _ _ (by decide), by decide,
    booking_snapshots_service (nineEnv)
      (quickFill shaveId) shaveApp
      { id := shaveId, name := "Shave", price := 1200, minutes := 20, idLast := true }
      (quickFill_valid _ _ _ (by decide)) (by decide)⟩

/-! ## Completing and deleting bookings -/

/-- C6. `handleComplete` is idempotent: completing the id twice gives the same state as
completing it once. After one or two calls alike, the collection has the same length,
at every position a booking with another id is the booking that was there, and a
booking with the id has status "completed" and every other field as before. The
services and the theme are not touched. -/
theorem handleComplete_idempotent (bid : String) (st : AppState) :
    handleComplete bid (handleComplete bid st) = handleComplete bid st ∧
      (handleComplete bid st).bookings.length = st.bookings.length ∧
      (∀ (i : Nat) (b : Booking), st.bookings[i]? = some b → b.id ≠ bid →
        (handleComplete bid st).bookings[i]? = some b ∧
        (handleComplete bid (handleComplete bid st)).bookings[i]? = some b) ∧
      (∀ (i : Nat) (b : Booking), st.bookings[i]? = some b → b.id = bid →
        (handleComplete bid st).bookings[i]? = some { b with status := "completed" } ∧
        (handleComplete bid (handleComplete bid st)).bookings[i]? =
          some { b with status := "completed" }) ∧
      (∀ b ∈ (handleComplete bid st).bookings, b.id = bid → b.status = "completed") ∧
      (handleComplete bid st).services = st.services ∧
      (handleComplete bid st).theme = st.theme := by
  have hidem : handleComplete bid (handleComplete bid st) = handleComplete bid st := by
    simp only [handleComplete, List.map_map]
    congr 1
    apply List.map_congr_left
    intro b _
    by_cases h : b.id = bid <;> simp [h]
  refine ⟨hidem, by simp [handleComplete], ?_, ?_, ?_, rfl, rfl⟩
  · intro i b hb hne
    rw [hidem]
    simp [handleComplete, List.getElem?_map, hb, hne]
  · intro i b hb heq
    rw [hidem]
    simp [handleComplete, List.getElem?_map, hb, heq]
  · intro b hb hid
    simp only [handleComplete, List.mem_map] at hb
    obtain ⟨a, -, rfl⟩ := hb
    by_cases h : a.id = bid
    · simp [h]
    · simp [h] at hid

/-- C7. `handleDelete` with an id that no booking carries returns the state it was
given. In every case the result keeps the bookings with another id, each as often as
before and in their relative order (it is a sublist of the input), and holds no
booking with the id; the services and the theme are not touched. -/
theorem handleDelete_removes_exactly (bid : String) (st : AppState) :
    ((∀ b ∈ st.bookings, b.id ≠ bid) → handleDelete bid st = st) ∧
      (handleDelete bid st).bookings.Sublist st.bookings ∧
      (∀ b ∈ (handleDelete bid st).bookings, b.id ≠ bid) ∧
      (∀ b : Booking, b.id ≠ bid →
        (handleDelete bid st).bookings.count b = st.bookings.count b) ∧
      (∀ b : Booking, b ∈ (handleDelete bid st).bookings ↔ b ∈ st.bookings ∧ b.id ≠ bid) ∧
      (handleDelete bid st).services = st.services ∧
      (handleDelete bid st).theme = st.theme := by
  refine ⟨fun h => ?_, ?_, ?_, ?_, ?_, rfl, rfl⟩
  · have : st.bookings.filter (fun b => b.id != bid) = st.bookings :=
      List.filter_eq_self.2 (fun b hb => by simpa using h b hb)
    simp only [handleDelete, this]
  · exact List.filter_sublist _
  · intro b hb
    simp only [handleDelete, List.mem_filter] at hb
    simpa using hb.2
  · intro b hb
    simp only [handleDelete]
    rw [List.count_filter]
    simpa using hb
  · intro b
    simp [handleDelete, List.mem_filter]

/-! ## The cache storage: lemmas -/

theorem Cache.match_put_self (c : Cache) (url : String) (res : Response)
    (hst : res.status ≠ 206) :
    Cache.match (Cache.put c url res) url = some res := by
  unfold Cache.match Cache.put
  rw [if_neg hst]
  have h : (c.filter (fun e => e.1 != url)).find? (fun e => e.1 == url) = none := by
    rw [List.find?_eq_none]
    intro e he
    simp only [List.mem_filter] at he
    simpa using he.2
  simp [List.find?_append, h]

theorem Cache.match_put_other (c : Cache) (url other : String) (res : Response)
    (h : other ≠ url) :
    Cache.match (Cache.put c url res) other = Cache.match c other := by
  by_cases hst : res.status = 206
  · rw [Cache.put, if_pos hst]
  unfold Cache.match Cache.put
  rw [if_neg hst]
  have h2 : (c.filter (fun e => e.1 != url)).find? (fun e => e.1 == other) =
      c.find? (fun e => e.1 == other) := by
    induction c with
    | nil => rfl
    | cons e c ih =>
      by_cases he : e.1 = url
      · have hne : ¬ (e.1 == other) = true := by
          simpa using fun h3 : e.1 = other => h (h3.symm.trans he)
        rw [List.filter_cons_of_neg (by simp [he]),
          @List.find?_cons_of_neg _ (fun x : String × Response => x.1 == other) e c hne, ih]
      · rw [List.filter_cons_of_pos (by simpa using he)]
        by_cases ho : (e.1 == other) = true
        · rw [@List.find?_cons_of_pos _ (fun x : String × Response => x.1 == other) e _ ho,
            @List.find?_cons_of_pos _ (fun x : String × Response => x.1 == other) e _ ho]
        · rw [@List.find?_cons_of_neg _ (fun x : String × Response => x.1 == other) e _ ho,
            @List.find?_cons_of_neg _ (fun x : String × Response => x.1 == other) e _ ho, ih]
  have h3 : ([(url, res)] : Cache).find? (fun e => e.1 == other) = none := by
    simp [List.find?_cons, Ne.symm h]
  rw [List.find?_append, h2, h3, Option.or_none]

theorem CacheStorage.bucket_open (cs : CacheStorage) (name : String) :
    (cs.open name).bucket name = cs.bucket name := by
  unfold CacheStorage.open
  by_cases h : cs.has name = true
  · simp [h]
  · have hnone : cs.find? (fun b => b.1 == name) = none := by
      rw [List.find?_eq_none]
      intro b hb hbn
      exact h (List.any_eq_true.2 ⟨b, hb, hbn⟩)
    simp [h, CacheStorage.bucket, List.find?_append, hnone]

theorem CacheStorage.has_open (cs : CacheStorage) (name : String) :
    (cs.open name).has name = true := by
  unfold CacheStorage.open
  by_cases h : cs.has name = true
  · simp [h]
  · rw [if_neg h]
    exact List.any_eq_true.2 ⟨(name, []), by simp, by simp⟩

theorem CacheStorage.bucket_map_put (cs : CacheStorage) (name url : String)
    (res : Response) (h : cs.has name = true) :
    CacheStorage.bucket
        (cs.map (fun b => if b.1 == name then (b.1, Cache.put b.2 url res) else b)) name =
      Cache.put (cs.bucket name) url res := by
  induction cs with
  | nil => simp [CacheStorage.has] at h
  | cons b cs ih =>
    by_cases hb : b.1 = name
    · simp [CacheStorage.bucket, List.find?_cons, hb]
    · have h2 : CacheStorage.has cs name = true := by
        simpa [CacheStorage.has, hb] using h
      have ih2 := ih h2
      simp only [CacheStorage.bucket] at ih2 ⊢
      simpa [List.find?_cons, hb] using ih2

theorem CacheStorage.bucket_openPut (cs : CacheStorage) (name url : String)
    (res : Response) :
    (cs.openPut name url res).bucket name = Cache.put (cs.bucket name) url res := by
  unfold CacheStorage.openPut
  rw [CacheStorage.bucket_map_put _ _ _ _ (CacheStorage.has_open cs name),
    CacheStorage.bucket_open]

theorem CacheStorage.match_of_bucket (cs : CacheStorage) (name url : String)
    (r : Response) (h : Cache.match (cs.bucket name) url = some r) :
    ∃ r2, cs.match url = some r2 := by
  induction cs with
  | nil => simp [CacheStorage.bucket, Cache.match] at h
  | cons b cs ih =>
    obtain ⟨n, c⟩ := b
    unfold CacheStorage.match
    cases hc : Cache.match c url with
    | some r3 => exact ⟨r3, rfl⟩
    | none =>
      by_cases hn : n = name
      · subst hn
        simp [CacheStorage.bucket, List.find?_cons, hc] at h
      · have h2 : Cache.match (CacheStorage.bucket cs name) url = some r := by
          simpa [CacheStorage.bucket, List.find?_cons, hn] using h
        simpa using ih h2

theorem activate_eq_filter (cs : CacheStorage) :
    activate cs = cs.filter (fun b => b.1 == CACHE_NAME) := by
  have gen : ∀ (ks : List String) (cs : CacheStorage),
      ks.foldl (fun acc k => if k != CACHE_NAME then CacheStorage.delete acc k else acc) cs =
        cs.filter (fun b => b.1 == CACHE_NAME || !(ks.contains b.1)) := by
    intro ks
    induction ks with
    | nil => intro cs; simp
    | cons k ks ih =>
      intro cs
      rw [List.foldl_cons, ih]
      by_cases hk : k = CACHE_NAME
      · subst hk
        simp only [bne_self_eq_false, Bool.false_eq_true, if_false]
        apply List.filter_congr
        intro b _
        by_cases hb : b.1 = CACHE_NAME <;> simp [hb]
      · simp only [bne_iff_ne, ne_eq, hk, not_false_eq_true, if_true, CacheStorage.delete,
          List.filter_filter]
        apply List.filter_congr
        intro b _
        by_cases hb : b.1 = CACHE_NAME
        · have h1 : ¬ b.1 = k := fun h => hk (h.symm.trans hb)
          simp [hb, h1]
          exact fun h => hk h.symm
        · by_cases hbk : b.1 = k
          · simp [hb, hbk]
            exact hk
          · have h2 : ¬ k = b.1 := fun h => hbk h.symm
            simp [hb, hbk, h2]
  unfold activate
  rw [gen]
  apply List.filter_congr
  intro b hb
  have hmem : b.1 ∈ cs.keys := List.mem_map_of_mem Prod.fst hb
  simp [hmem]

theorem CacheStorage.cached_openPut (cs : CacheStorage) (url u : String) (res : Response)
    (h : (∃ r, Cache.match (cs.bucket CACHE_NAME) u = some r) ∨
      (u = url ∧ res.status ≠ 206)) :
    ∃ r, Cache.match ((cs.openPut CACHE_NAME url res).bucket CACHE_NAME) u = some r := by
  rw [CacheStorage.bucket_openPut]
  by_cases hst : res.status = 206
  · rw [Cache.put, if_pos hst]
    rcases h with h | h
    · exact h
    · exact absurd hst h.2
  · by_cases hu : u = url
    · subst hu
      exact ⟨res, Cache.match_put_self _ _ _ hst⟩
    · rw [Cache.match_put_other _ _ _ _ hu]
      rcases h with h | h
      · exact h
      · exact absurd h.1 hu

theorem shellCached_openPut (cs : CacheStorage) (url : String) (res : Response)
    (h : ShellCached cs) : ShellCached (cs.openPut CACHE_NAME url res) :=
  fun u hu => CacheStorage.cached_openPut cs url u res (Or.inl (h u hu))

theorem shellCached_onFetch (net : Network) (cs : CacheStorage) (req : Request)
    (h : ShellCached cs) : ShellCached (onFetch net cs req).2 := by
  unfold onFetch
  split
  · split
    · exact shellCached_openPut _ _ _ h
    · exact h
  · split
    · exact h
    · split
      · split
        · exact h
        · exact shellCached_openPut _ _ _ h
      · split <;> exact h

theorem bucket_activate (cs : CacheStorage) :
    (activate cs).bucket CACHE_NAME = cs.bucket CACHE_NAME := by
  rw [activate_eq_filter]
  unfold CacheStorage.bucket
  congr 2
  induction cs with
  | nil => rfl
  | cons b cs ih =>
    by_cases hb : (b.1 == CACHE_NAME) = true
    · rw [@List.filter_cons_of_pos _ (fun x : String × Cache => x.1 == CACHE_NAME) b _ hb,
        @List.find?_cons_of_pos _ (fun x : String × Cache => x.1 == CACHE_NAME) b _ hb,
        @List.find?_cons_of_pos _ (fun x : String × Cache => x.1 == CACHE_NAME) b _ hb]
    · rw [@List.filter_cons_of_neg _ (fun x : String × Cache => x.1 == CACHE_NAME) b _ hb,
        @List.find?_cons_of_neg _ (fun x : String × Cache => x.1 == CACHE_NAME) b _ hb, ih]

theorem shellCached_activate (cs : CacheStorage) (h : ShellCached cs) :
    ShellCached (activate cs) := by
  intro u hu
  rw [bucket_activate]
  exact h u hu

theorem fetchAll_urls (net : Network) (urls : List String) (rs : List (String × Response))
    (h : fetchAll net urls = some rs) : rs.map Prod.fst = urls := by
  induction urls generalizing rs with
  | nil =>
    simp only [fetchAll, Option.some.injEq] at h
    subst h
    rfl
  | cons u us ih =>
    unfold fetchAll at h
    split at h
    · cases h
    · split at h
      · cases hrec : fetchAll net us with
        | none => rw [hrec] at h; cases h
        | some rs2 =>
          rw [hrec] at h
          simp only [Option.map_some', Option.some.injEq] at h
          subst h
          simp [ih rs2 hrec]
      · cases h

theorem fetchAll_status (net : Network) (urls : List String)
    (rs : List (String × Response)) (h : fetchAll net urls = some rs) :
    ∀ e ∈ rs, e.2.status ≠ 206 := by
  induction urls generalizing rs with
  | nil =>
    simp only [fetchAll, Option.some.injEq] at h
    subst h
    intro e he
    cases he
  | cons u us ih =>
    unfold fetchAll at h
    split at h
    · cases h
    · rename_i r _
      split at h
      · rename_i hok
        cases hrec : fetchAll net us with
        | none => rw [hrec] at h; cases h
        | some rs2 =>
          rw [hrec] at h
          simp only [Option.map_some', Option.some.injEq] at h
          subst h
          intro e he
          rcases List.mem_cons.1 he with he | he
          · subst he
            exact hok.2.2
          · exact ih rs2 hrec e he
      · cases h

theorem cached_foldl_openPut (rs : List (String × Response)) (cs : CacheStorage)
    (u : String) (hst : ∀ e ∈ rs, e.2.status ≠ 206)
    (h : (∃ r, Cache.match (cs.bucket CACHE_NAME) u = some r) ∨ u ∈ rs.map Prod.fst) :
    ∃ r, Cache.match
      ((rs.foldl (fun acc e => CacheStorage.openPut acc CACHE_NAME e.1 e.2) cs).bucket
        CACHE_NAME) u = some r := by
  induction rs generalizing cs with
  | nil =>
    rcases h with h | h
    · exact h
    · simp at h
  | cons e rs ih =>
    rw [List.foldl_cons]
    apply ih _ (fun x hx => hst x (List.mem_cons_of_mem _ hx))
    rcases h with h | h
    · exact Or.inl (CacheStorage.cached_openPut cs e.1 u e.2 (Or.inl h))
    · rw [List.map_cons, List.mem_cons] at h
      rcases h with h | h
      · exact Or.inl (CacheStorage.cached_openPut cs e.1 u e.2
          (Or.inr ⟨h, hst e (List.mem_cons_self _ _)⟩))
      · exact Or.inr h

theorem shellCached_install (net : Network) (cs cs2 : CacheStorage)
    (h : install net cs = (cs2, true)) : ShellCached cs2 := by
  unfold install at h
  split at h
  · cases h
  · rename_i rs hrs
    injection h with h1 _
    subst h1
    intro u hu
    apply cached_foldl_openPut _ _ _ (fetchAll_status net ASSETS rs hrs)
    right
    rw [fetchAll_urls net ASSETS rs hrs]
    exact hu

theorem shellCached_of_afterInstall (cs : CacheStorage) (h : AfterInstall cs) :
    ShellCached cs := by
  induction h with
  | installed net cs cs2 hi => exact shellCached_install net cs cs2 hi
  | fetched net cs req _ ih => exact shellCached_onFetch net cs req ih
  | activated cs _ ih => exact shellCached_activate cs ih

theorem match_asset_of_afterInstall (cs : CacheStorage) (h : AfterInstall cs) (u : String)
    (hu : u ∈ ASSETS) : ∃ r, cs.match u = some r := by
  obtain ⟨r, hr⟩ := shellCached_of_afterInstall cs h u hu
  exact CacheStorage.match_of_bucket cs CACHE_NAME u r hr

/-! ## The service worker: the claims -/

/-- C10. After the activate handler the cache storage is the prior storage restricted
to the buckets named `CACHE_NAME`: the resulting names are exactly the prior names
equal to the current tag, no bucket with another name is left, and a bucket named
`CACHE_NAME` is retained with its contents unchanged. -/
theorem activate_keeps_only_current (cs : CacheStorage) :
    (activate cs).keys = cs.keys.filter (fun k => k == CACHE_NAME) ∧
      activate cs = cs.filter (fun b => b.1 == CACHE_NAME) ∧
      (∀ k, k ≠ CACHE_NAME → (activate cs).has k = false) ∧
      (activate cs).has CACHE_NAME = cs.has CACHE_NAME ∧
      (activate cs).bucket CACHE_NAME = cs.bucket CACHE_NAME := by
  refine ⟨?_, activate_eq_filter cs, ?_, ?_, bucket_activate cs⟩
  · rw [activate_eq_filter]
    simp only [CacheStorage.keys, List.filter_map]
    rfl
  · intro k hk
    rw [activate_eq_filter]
    simp only [CacheStorage.has, List.any_filter, List.any_eq_false, Bool.and_eq_true,
      beq_iff_eq, not_and]
    intro b _ hb hbk
    exact hk (hbk ▸ hb)
  · rw [activate_eq_filter]
    simp only [CacheStorage.has, List.any_filter, Bool.and_self]

theorem CacheStorage.openPut_partial (cs : CacheStorage) (name url : String)
    (res : Response) (h : res.status = 206) : cs.openPut name url res = cs.open name := by
  unfold CacheStorage.openPut
  have hid : ∀ b ∈ cs.open name,
      (fun b : String × Cache => if b.1 == name then (b.1, Cache.put b.2 url res) else b) b =
        b := by
    intro b _
    simp only [Cache.put, if_pos h]
    split <;> rfl
  rw [List.map_congr_left hid]
  simp

/-- C8, refuted as stated: after a first installation the network answers a navigation
with a 206 response; the handler returns that response, the bucket `CACHE_NAME` holds
no entry for the request, and the cache storage is what it was. -/
theorem onFetch_navigate_partial_not_stored :
    navRequest.mode = "navigate" ∧
      partialNet navRequest = some { status := 206, type := "basic", body := "first bytes" } ∧
      (onFetch partialNet installedCaches navRequest).1 =
        some { status := 206, type := "basic", body := "first bytes" } ∧
      Cache.match ((onFetch partialNet installedCaches navRequest).2.bucket CACHE_NAME)
        navRequest.url = none ∧
      (onFetch partialNet installedCaches navRequest).2 = installedCaches := by
  decide

/-- C8, amended. For a request with mode "navigate": when the network answers with
`r`, the handler returns `r` and puts it into the bucket `CACHE_NAME` under the
request's URL; the bucket then holds `r` under that URL when the status of `r` is not
206, and for a 206 response the put is refused, the bucket keeps its contents and the
storage is the prior one with the bucket opened. When the network fails, the handler
returns the cached entry for "/index.html" and leaves the cache as it was, and in
every cache state reached after an installation that entry exists, so the offline
navigation gets a response. -/
theorem onFetch_navigate (net : Network) (cs : CacheStorage) (req : Request)
    (hnav : req.mode = "navigate") :
    (∀ r, net req = some r →
        onFetch net cs req = (some r, cs.openPut CACHE_NAME req.url r) ∧
        (r.status ≠ 206 →
          Cache.match ((onFetch net cs req).2.bucket CACHE_NAME) req.url = some r) ∧
        (r.status = 206 →
          (onFetch net cs req).2 = cs.open CACHE_NAME ∧
          (onFetch net cs req).2.bucket CACHE_NAME = cs.bucket CACHE_NAME)) ∧
      (net req = none → onFetch net cs req = (cs.match "/index.html", cs)) ∧
      (net req = none → AfterInstall cs →
        ∃ r, cs.match "/index.html" = some r ∧ (onFetch net cs req).1 = some r) := by
  have hfail : net req = none → onFetch net cs req = (cs.match "/index.html", cs) := by
    intro hn
    simp only [onFetch, if_pos hnav, hn]
  refine ⟨fun r hr => ?_, hfail, fun hn hai => ?_⟩
  · have h1 : onFetch net cs req = (some r, cs.openPut CACHE_NAME req.url r) := by
      simp only [onFetch, if_pos hnav, hr]
    refine ⟨h1, fun hst => ?_, fun hst => ?_⟩
    · rw [h1, CacheStorage.bucket_openPut]
      exact Cache.match_put_self _ _ _ hst
    · rw [h1]
      exact ⟨CacheStorage.openPut_partial cs CACHE_NAME req.url r hst, by
        rw [CacheStorage.openPut_partial cs CACHE_NAME req.url r hst,
          CacheStorage.bucket_open]⟩
  · obtain ⟨r, hr⟩ := match_asset_of_afterInstall cs hai "/index.html" (by decide)
    exact ⟨r, hr, by rw [hfail hn, hr]⟩

/-- C8 amended, at a concrete input: after a first installation, a navigation to
"/bookings" with the network down is answered with the cached "/index.html"; with the
network up, the 200 response is stored under "/bookings". -/
theorem onFetch_navigate_witness :
    navRequest.mode = "navigate" ∧
      AfterInstall installedCaches ∧
      onFetch offlineNet installedCaches navRequest =
        (some { status := 200, type := "basic", body := "body of /index.html" },
          installedCaches) ∧
      Cache.match ((onFetch onlineNet installedCaches navRequest).2.bucket CACHE_NAME)
          "/bookings" = some { status := 200, type := "basic", body := "body of /bookings" } ∧
      ((∀ r, offlineNet navRequest = some r →
          onFetch offlineNet installedCaches navRequest =
            (some r, installedCaches.openPut CACHE_NAME navRequest.url r) ∧
          (r.status ≠ 206 →
            Cache.match ((onFetch offlineNet installedCaches navRequest).2.bucket CACHE_NAME)
              navRequest.url = some r) ∧
          (r.status = 206 →
            (onFetch offlineNet installedCaches navRequest).2 =
              installedCaches.open CACHE_NAME ∧
            (onFetch offlineNet installedCaches navRequest).2.bucket CACHE_NAME =
              installedCaches.bucket CACHE_NAME)) ∧
        (offlineNet navRequest = none →
          onFetch offlineNet installedCaches navRequest =
            (installedCaches.match "/index.html", installedCaches)) ∧
        (offlineNet navRequest = none → AfterInstall installedCaches →
          ∃ r, installedCaches.match "/index.html" = some r ∧
            (onFetch offlineNet installedCaches navRequest).1 = some r)) :=
  ⟨rfl, AfterInstall.installed onlineNet [] installedCaches (by decide), by decide, by decide,
    onFetch_navigate offlineNet installedCaches navRequest rfl⟩

/-- C9. For a request whose mode is not "navigate": (1) a response the cache holds for
the request is returned whatever the network does, and the cache is unchanged; so in
every state reached after an installation a manifest asset is returned with the
network down; (2) on a cache miss, a network response with status 200 and type
"basic" is returned and stored in the bucket `CACHE_NAME`; (3) any other network
response is returned and the cache is unchanged; (4) when the network fails and the
destination is "image", the handler returns the cached "/icons/icon-192x192.png";
(5) when the network fails and the destination is not "image", there is no
response. -/
theorem onFetch_subresource (net : Network) (cs : CacheStorage) (req : Request)
    (hmode : req.mode ≠ "navigate") :
    (∀ c, cs.match req.url = some c →
        ∀ anyNet : Network, onFetch anyNet cs req = (some c, cs)) ∧
      (AfterInstall cs → req.url ∈ ASSETS →
        ∃ c, cs.match req.url = some c ∧ onFetch (fun _ => none) cs req = (some c, cs)) ∧
      (∀ r, cs.match req.url = none → net req = some r → r.status = 200 →
        r.type = "basic" →
        onFetch net cs req = (some r, cs.openPut CACHE_NAME req.url r) ∧
        Cache.match ((onFetch net cs req).2.bucket CACHE_NAME) req.url = some r) ∧
      (∀ r, cs.match req.url = none → net req = some r →
        (r.status ≠ 200 ∨ r.type ≠ "basic") → onFetch net cs req = (some r, cs)) ∧
      (cs.match req.url = none → net req = none → req.destination = "image" →
        onFetch net cs req = (cs.match "/icons/icon-192x192.png", cs)) ∧
      (cs.match req.url = none → net req = none → req.destination ≠ "image" →
        onFetch net cs req = (none, cs)) := by
  have hit : ∀ c, cs.match req.url = some c →
      ∀ anyNet : Network, onFetch anyNet cs req = (some c, cs) := by
    intro c hc anyNet
    simp only [onFetch, if_neg hmode, hc]
  refine ⟨hit, fun hai hu => ?_, fun r hmiss hr h200 hbasic => ?_, fun r hmiss hr hother => ?_,
    fun hmiss hn himg => ?_, fun hmiss hn himg => ?_⟩
  · obtain ⟨c, hc⟩ := match_asset_of_afterInstall cs hai req.url hu
    exact ⟨c, hc, hit c hc _⟩
  · have hcond : ¬ (r.status ≠ 200 ∨ r.type ≠ "basic") := by
      simp [h200, hbasic]
    have h1 : onFetch net cs req = (some r, cs.openPut CACHE_NAME req.url r) := by
      simp only [onFetch, if_neg hmode, hmiss, hr, if_neg hcond]
    refine ⟨h1, ?_⟩
    rw [h1, CacheStorage.bucket_openPut]
    exact Cache.match_put_self _ _ _ (by rw [h200]; decide)
  · simp only [onFetch, if_neg hmode, hmiss, hr, if_pos hother]
  · simp only [onFetch, if_neg hmode, hmiss, hn, if_pos himg]
  · simp only [onFetch, if_neg hmode, hmiss, hn, if_neg himg]

/-- C9, at a concrete input: after a first installation and with the network down, a
request for an image outside the manifest is answered with the cached placeholder
icon. -/
theorem onFetch_subresource_witness :
    imageRequest.mode ≠ "navigate" ∧
      onFetch offlineNet installedCaches imageRequest =
        (some { status := 200, type := "basic", body := "body of /icons/icon-192x192.png" },
          installedCaches) ∧
      ((∀ c, installedCaches.match imageRequest.url = some c →
          ∀ anyNet : Network, onFetch anyNet installedCaches imageRequest =
            (some c, installedCaches)) ∧
        (AfterInstall installedCaches → imageRequest.url ∈ ASSETS →
          ∃ c, installedCaches.match imageRequest.url = some c ∧
            onFetch (fun _ => none) installedCaches imageRequest = (some c, installedCaches)) ∧
        (∀ r, installedCaches.match imageRequest.url = none →
          offlineNet imageRequest = some r → r.status = 200 → r.type = "basic" →
          onFetch offlineNet installedCaches imageRequest =
            (some r, installedCaches.openPut CACHE_NAME imageRequest.url r) ∧
          Cache.match ((onFetch offlineNet installedCaches imageRequest).2.bucket CACHE_NAME)
            imageRequest.url = some r) ∧
        (∀ r, installedCaches.match imageRequest.url = none →
          offlineNet imageRequest = some r → (r.status ≠ 200 ∨ r.type ≠ "basic") →
          onFetch offlineNet installedCaches imageRequest = (some r, installedCaches)) ∧
        (installedCaches.match imageRequest.url = none → offlineNet imageRequest = none →
          imageRequest.destination = "image" →
          onFetch offlineNet installedCaches imageRequest =
            (installedCaches.match "/icons/icon-192x192.png", installedCaches)) ∧
        (installedCaches.match imageRequest.url = none → offlineNet imageRequest = none →
          imageRequest.destination ≠ "image" →
          onFetch offlineNet installedCaches imageRequest = (none, installedCaches))) :=
  ⟨by decide, by decide, onFetch_subresource offlineNet installedCaches imageRequest (by decide)⟩

/-! ## JSON: reading back what `JSON.stringify` writes -/

theorem hex4_control : ∀ n, n < 32 →
    hex4 '0' '0' (Nat.digitChar (n / 16)) (Nat.digitChar (n % 16)) = some n := by
  decide

theorem parseStringBody_cons (c : Char) (rest : List Char) :
    parseStringBody (c :: rest) =
      if c = '"' then .ok [] rest
      else if c = '\\' then
        match rest with
        | [] => .syntaxError
        | e :: r =>
          if e = 'u' then
            match r with
            | h1 :: h2 :: h3 :: h4 :: r4 =>
              match hex4 h1 h2 h3 h4 with
              | none => .syntaxError
              | some n =>
                if 0xD800 ≤ n ∧ n ≤ 0xDFFF then .outside
                else (parseStringBody r4).map (fun s => Char.ofNat n :: s)
            | _ => .syntaxError
          else
            match unescape e with
            | none => .syntaxError
            | some ch => (parseStringBody r).map (fun s => ch :: s)
      else if c.toNat < 0x20 then .syntaxError
      else (parseStringBody rest).map (fun s => c :: s) := by
  rw [parseStringBody.eq_def]

theorem parseStringBody_quoteChar (c : Char) (X : List Char) :
    parseStringBody (quoteChar c ++ X) = (parseStringBody X).map (fun s => c :: s) := by
  unfold quoteChar
  split_ifs with h1 h2 h3 h4 h5 h6 h7 h8
  · subst h1; simp [parseStringBody_cons, unescape]
  · subst h2; simp [parseStringBody_cons, unescape]
  · subst h3; simp [parseStringBody_cons, unescape]
  · subst h4; simp [parseStringBody_cons, unescape]
  · subst h5; simp [parseStringBody_cons, unescape]
  · subst h6; simp [parseStringBody_cons, unescape]
  · subst h7; simp [parseStringBody_cons, unescape]
  · have hx := hex4_control c.toNat h8
    have hs : ¬ (0xD800 ≤ c.toNat ∧ c.toNat ≤ 0xDFFF) := by omega
    simp only [List.cons_append, List.nil_append]
    rw [parseStringBody_cons]
    simp [hx, hs, Char.ofNat_toNat]
  · simp only [List.cons_append, List.nil_append]
    rw [parseStringBody_cons]
    simp [h1, h2, h8]

theorem parseStringBody_quoteBody (s rest : List Char) :
    parseStringBody (quoteBody s ++ '"' :: rest) = .ok s rest := by
  induction s with
  | nil => simp [quoteBody, parseStringBody_cons]
  | cons c cs ih =>
    rw [quoteBody, List.append_assoc, parseStringBody_quoteChar, ih]
    rfl
theorem digitChar_spec : ∀ k, k < 10 →
    isAsciiDigit (Nat.digitChar k) = true ∧ digitValue (Nat.digitChar k) = k ∧
      (k ≠ 0 → Nat.digitChar k ≠ '0') := by
  decide

theorem isAsciiDigit_ne_minus (c : Char) (h : isAsciiDigit c = true) : c ≠ '-' := by
  rintro rfl
  exact absurd h (by decide)

theorem toDigitsCore_succ (fuel n : Nat) (ds : List Char) :
    Nat.toDigitsCore 10 (fuel + 1) n ds =
      if n / 10 = 0 then Nat.digitChar (n % 10) :: ds
      else Nat.toDigitsCore 10 fuel (n / 10) (Nat.digitChar (n % 10) :: ds) := by
  rw [Nat.toDigitsCore]

theorem scanDigits_cons_digit (acc : Nat) (c : Char) (rest : List Char)
    (h : isAsciiDigit c = true) :
    scanDigits acc (c :: rest) = scanDigits (acc * 10 + digitValue c) rest := by
  rw [scanDigits, if_pos h]

/-- The decimal digits core prints for a positive number: a non-zero first digit and
a tail, which `scanDigits` reads back to the number. -/
theorem toDigitsCore_spec (n : Nat) (hn : 0 < n) :
    ∃ (c : Char) (tail : List Char), c ≠ '0' ∧ isAsciiDigit c = true ∧
      (∀ fuel ds, n < fuel → Nat.toDigitsCore 10 fuel n ds = c :: (tail ++ ds)) ∧
      ∀ X, scanDigits (digitValue c) (tail ++ X) = scanDigits n X := by
  induction n using Nat.strong_induction_on with
  | _ n ih =>
    have hmod : n % 10 < 10 := Nat.mod_lt _ (by decide)
    obtain ⟨hdig, hval, hnz⟩ := digitChar_spec (n % 10) hmod
    by_cases hq : n / 10 = 0
    · have hlt : n < 10 := by omega
      have hmodn : n % 10 = n := Nat.mod_eq_of_lt hlt
      refine ⟨Nat.digitChar (n % 10), [], hnz (by omega), hdig, ?_, ?_⟩
      · intro fuel ds hf
        obtain ⟨f, rfl⟩ : ∃ f, fuel = f + 1 := ⟨fuel - 1, by omega⟩
        rw [toDigitsCore_succ, if_pos hq]
        rfl
      · intro X
        rw [hval, hmodn]
        rfl
    · have hq0 : 0 < n / 10 := Nat.pos_of_ne_zero hq
      have hqlt : n / 10 < n := by omega
      obtain ⟨c, tail, hc0, hcd, hcore, hscan⟩ := ih (n / 10) hqlt hq0
      refine ⟨c, tail ++ [Nat.digitChar (n % 10)], hc0, hcd, ?_, ?_⟩
      · intro fuel ds hf
        obtain ⟨f, rfl⟩ : ∃ f, fuel = f + 1 := ⟨fuel - 1, by omega⟩
        rw [toDigitsCore_succ, if_neg hq, hcore f _ (by omega)]
        simp
      · intro X
        rw [List.append_assoc, hscan, List.singleton_append, scanDigits_cons_digit _ _ _ hdig,
          hval]
        congr 1
        omega

/-- A text that does not continue a number: it is empty or starts with a comma or a
closing bracket or brace. -/
theorem scanDigits_delimited (n : Nat) (rest : List Char)
    (h : ∀ c t, rest = c :: t → isAsciiDigit c = false) :
    scanDigits n rest = (n, rest) := by
  cases rest with
  | nil => rfl
  | cons c t => rw [scanDigits, h c t rfl]; rfl

theorem parseNat_toDigits (n : Nat) (rest : List Char)
    (h : ∀ c t, rest = c :: t → isAsciiDigit c = false) :
    parseNat (Nat.toDigits 10 n ++ rest) = .ok n rest := by
  rcases Nat.eq_zero_or_pos n with h0 | hpos
  · subst h0
    rfl
  · obtain ⟨c, tail, hc0, hcd, hcore, hscan⟩ := toDigitsCore_spec n hpos
    have hd : Nat.toDigits 10 n = c :: (tail ++ []) := hcore (n + 1) [] (Nat.lt_succ_self n)
    rw [hd, List.append_nil, List.cons_append, parseNat, if_neg hc0, if_pos hcd, hscan,
      scanDigits_delimited n rest h]

theorem renderInt_head (n : Int) :
    ∃ c t, renderInt n = c :: t ∧ (c = '-' ∨ isAsciiDigit c = true) := by
  unfold renderInt
  split_ifs with hneg
  · exact ⟨'-', _, rfl, Or.inl rfl⟩
  · rcases Nat.eq_zero_or_pos n.natAbs with h0 | hpos
    · rw [h0]
      exact ⟨'0', [], rfl, Or.inr (by decide)⟩
    · obtain ⟨c, tail, -, hcd, hcore, -⟩ := toDigitsCore_spec n.natAbs hpos
      exact ⟨c, tail ++ [], hcore (n.natAbs + 1) [] (Nat.lt_succ_self _), Or.inr hcd⟩

theorem parseNumber_renderInt (n : Int) (rest : List Char)
    (h : ∀ c t, rest = c :: t → isAsciiDigit c = false)
    (hf : startsFraction rest = false) :
    parseNumber (renderInt n ++ rest) = .ok n rest := by
  unfold renderInt
  split_ifs with hneg
  · rw [List.cons_append, parseNumber]
    simp only [if_true, parseNat_toDigits _ rest h, hf]
    simp only [Bool.false_eq_true, if_false]
    congr 1
    omega
  · obtain ⟨c, t, hct, hc⟩ : ∃ c t, Nat.toDigits 10 n.natAbs = c :: t ∧
        isAsciiDigit c = true := by
      rcases Nat.eq_zero_or_pos n.natAbs with h0 | hpos
      · rw [h0]
        exact ⟨'0', [], rfl, by decide⟩
      · obtain ⟨c, tail, -, hcd, hcore, -⟩ := toDigitsCore_spec n.natAbs hpos
        exact ⟨c, tail ++ [], hcore (n.natAbs + 1) [] (Nat.lt_succ_self _), hcd⟩
    have hpn := parseNat_toDigits n.natAbs rest h
    rw [hct, List.cons_append] at hpn ⊢
    rw [parseNumber]
    simp only [if_neg (isAsciiDigit_ne_minus c hc), hpn, hf]
    simp only [Bool.false_eq_true, if_false]
    congr 1
    omega
theorem skipWs_cons (c : Char) (t : List Char) (h : isJsonSpace c = false) :
    skipWs (c :: t) = c :: t := by
  rw [skipWs, h]
  rfl

theorem isDelimited_spec (rest : List Char) (h : isDelimited rest = true) :
    (∀ c t, rest = c :: t → isAsciiDigit c = false) ∧ startsFraction rest = false ∧
      skipWs rest = rest := by
  cases rest with
  | nil => exact ⟨fun c t h => (by cases h), rfl, rfl⟩
  | cons d t =>
    have hd : d = ',' ∨ d = ']' ∨ d = '}' := by
      simpa [isDelimited, or_assoc] using h
    rcases hd with rfl | rfl | rfl
    · exact ⟨fun c t h => (by cases h; decide), (by simp [startsFraction]), skipWs_cons _ _ (by decide)⟩
    · exact ⟨fun c t h => (by cases h; decide), (by simp [startsFraction]), skipWs_cons _ _ (by decide)⟩
    · exact ⟨fun c t h => (by cases h; decide), (by simp [startsFraction]), skipWs_cons _ _ (by decide)⟩

theorem isAsciiDigit_not_space (c : Char) (h : isAsciiDigit c = true) :
    isJsonSpace c = false ∧ c ≠ ']' ∧ c ≠ '}' := by
  refine ⟨?_, ?_, ?_⟩
  · cases hs : isJsonSpace c with
    | false => rfl
    | true =>
      have : c = ' ' ∨ c = '\t' ∨ c = '\n' ∨ c = '\r' := by
        simpa [isJsonSpace, or_assoc] using hs
      rcases this with rfl | rfl | rfl | rfl <;> exact absurd h (by decide)
  · rintro rfl; exact absurd h (by decide)
  · rintro rfl; exact absurd h (by decide)

/-- The text of a value starts with a character that is neither white space nor a
closing bracket or brace. -/
theorem render_head (j : Json) :
    ∃ c t, render j = c :: t ∧ isJsonSpace c = false ∧ c ≠ ']' ∧ c ≠ '}' := by
  cases j with
  | null => exact ⟨'n', _, by rw [render], by decide, by decide, by decide⟩
  | bool b =>
    cases b
    · exact ⟨'f', _, by rw [render], by decide, by decide, by decide⟩
    · exact ⟨'t', _, by rw [render], by decide, by decide, by decide⟩
  | num n =>
    obtain ⟨c, t, hct, hc⟩ := renderInt_head n
    refine ⟨c, t, by rw [render, hct], ?_⟩
    rcases hc with rfl | hc
    · exact ⟨by decide, by decide, by decide⟩
    · exact isAsciiDigit_not_space c hc
  | str s => exact ⟨'"', _, by rw [render, quote], by decide, by decide, by decide⟩
  | arr xs =>
    cases xs with
    | nil => exact ⟨'[', _, by rw [render], by decide, by decide, by decide⟩
    | cons x xs => exact ⟨'[', _, by rw [render], by decide, by decide, by decide⟩
  | obj kvs =>
    cases kvs with
    | nil => exact ⟨'{', _, by rw [render], by decide, by decide, by decide⟩
    | cons kv kvs =>
      obtain ⟨k, v⟩ := kv
      exact ⟨'{', _, by rw [render], by decide, by decide, by decide⟩

theorem Json.size_pos (j : Json) : 0 < j.size := by
  cases j <;> simp [Json.size]

theorem setField_fresh (fields : List (String × Json)) (k : String) (v : Json)
    (h : k ∉ fields.map Prod.fst) : setField fields k v = fields ++ [(k, v)] := by
  unfold setField
  rw [if_neg]
  intro hany
  rw [List.any_eq_true] at hany
  obtain ⟨f, hf, hk⟩ := hany
  exact h (List.mem_map.2 ⟨f, hf, by simpa using hk⟩)

theorem foldl_setField (raw acc : List (String × Json))
    (h : (acc.map Prod.fst ++ raw.map Prod.fst).Nodup) :
    raw.foldl (fun a f => setField a f.1 f.2) acc = acc ++ raw := by
  induction raw generalizing acc with
  | nil => simp
  | cons kv raw ih =>
    have hk : kv.1 ∉ acc.map Prod.fst := by
      intro hmem
      rw [List.nodup_append] at h
      exact h.2.2 hmem (by simp)
    rw [List.foldl_cons, setField_fresh acc kv.1 kv.2 hk, ih]
    · simp
    · simpa [List.append_assoc] using h

theorem buildObject_nodup (raw : List (String × Json)) (h : (raw.map Prod.fst).Nodup) :
    buildObject raw = raw := by
  unfold buildObject
  rw [foldl_setField raw [] (by simpa using h)]
  rfl
theorem parseValue_succ (fuel : Nat) (cs : List Char) :
    parseValue (fuel + 1) cs =
      match skipWs cs with
      | [] => .syntaxError
      | c :: rest =>
        if c = '-' ∨ isAsciiDigit c = true then (parseNumber (c :: rest)).map Json.num
        else if c = '"' then (parseStringBody rest).map (fun s => Json.str (String.mk s))
        else if c = '[' then
          match skipWs rest with
          | [] => .syntaxError
          | d :: rest2 =>
            if d = ']' then .ok (Json.arr []) rest2
            else (parseElems fuel (d :: rest2)).map Json.arr
        else if c = '{' then
          match skipWs rest with
          | [] => .syntaxError
          | d :: rest2 =>
            if d = '}' then .ok (Json.obj []) rest2
            else (parseMembers fuel (d :: rest2)).map (fun raw => Json.obj (buildObject raw))
        else if c = 'n' then
          match expect ['u', 'l', 'l'] rest with
          | some r => .ok Json.null r
          | none => .syntaxError
        else if c = 't' then
          match expect ['r', 'u', 'e'] rest with
          | some r => .ok (Json.bool true) r
          | none => .syntaxError
        else if c = 'f' then
          match expect ['a', 'l', 's', 'e'] rest with
          | some r => .ok (Json.bool false) r
          | none => .syntaxError
        else .syntaxError := by
  rw [parseValue]

theorem parseElems_succ (fuel : Nat) (cs : List Char) :
    parseElems (fuel + 1) cs =
      match parseValue fuel cs with
      | .ok v r1 =>
        match skipWs r1 with
        | [] => .syntaxError
        | c :: r2 =>
          if c = ',' then (parseElems fuel r2).map (fun vs => v :: vs)
          else if c = ']' then .ok [v] r2
          else .syntaxError
      | .syntaxError => .syntaxError
      | .outside => .outside := by
  rw [parseElems]

theorem parseMembers_succ (fuel : Nat) (cs : List Char) :
    parseMembers (fuel + 1) cs =
      match skipWs cs with
      | [] => .syntaxError
      | q :: r0 =>
        if q = '"' then
          match parseStringBody r0 with
          | .ok k r1 =>
            match skipWs r1 with
            | [] => .syntaxError
            | colon :: r2 =>
              if colon = ':' then
                match parseValue fuel r2 with
                | .ok v r3 =>
                  match skipWs r3 with
                  | [] => .syntaxError
                  | c :: r4 =>
                    if c = ',' then
                      (parseMembers fuel r4).map (fun kvs => (String.mk k, v) :: kvs)
                    else if c = '}' then .ok [(String.mk k, v)] r4
                    else .syntaxError
                | .syntaxError => .syntaxError
                | .outside => .outside
              else .syntaxError
          | .syntaxError => .syntaxError
          | .outside => .outside
        else .syntaxError := by
  rw [parseMembers]
theorem renderTail_delimited (xs : List Json) (rest : List Char) :
    isDelimited (renderTail xs ++ rest) = true := by
  cases xs <;> simp [renderTail, isDelimited]

theorem renderFieldsTail_delimited (kvs : List (String × Json)) (rest : List Char) :
    isDelimited (renderFieldsTail kvs ++ rest) = true := by
  cases kvs with
  | nil => simp [renderFieldsTail, isDelimited]
  | cons kv kvs =>
    obtain ⟨k, v⟩ := kv
    simp [renderFieldsTail, isDelimited]

/-- With fuel for every node, the parser reads a rendered value back: the value, the
elements of an array, the members of an object. -/
theorem parse_render_aux (f : Nat) :
    (∀ j rest, Json.size j ≤ f → Json.wellFormed j = true → isDelimited rest = true →
      parseValue f (render j ++ rest) = .ok j rest) ∧
    (∀ x xs rest, 1 + Json.size x + Json.sizeList xs ≤ f → Json.wellFormed x = true →
      Json.wellFormedList xs = true →
      parseElems f (render x ++ (renderTail xs ++ rest)) = .ok (x :: xs) rest) ∧
    (∀ k v kvs rest, 1 + Json.size v + Json.sizeFields kvs ≤ f → Json.wellFormed v = true →
      Json.wellFormedFields kvs = true →
      parseMembers f (quote k ++ ':' :: (render v ++ (renderFieldsTail kvs ++ rest))) =
        .ok ((k, v) :: kvs) rest) := by
  induction f with
  | zero =>
    refine ⟨fun j rest h => ?_, fun x xs rest h => ?_, fun k v kvs rest h => ?_⟩
    · have := Json.size_pos j
      omega
    · omega
    · omega
  | succ f ih =>
    obtain ⟨ihV, ihE, ihM⟩ := ih
    refine ⟨?_, ?_, ?_⟩
    · intro j rest hsize hwf hrest
      obtain ⟨hnd, hnf, -⟩ := isDelimited_spec rest hrest
      cases j with
      | null =>
        rw [render, parseValue_succ, List.cons_append, skipWs_cons _ _ (by decide)]
        simp [isAsciiDigit, expect]
      | bool b =>
        cases b
        · rw [render, parseValue_succ, List.cons_append, skipWs_cons _ _ (by decide)]
          simp [isAsciiDigit, expect]
        · rw [render, parseValue_succ, List.cons_append, skipWs_cons _ _ (by decide)]
          simp [isAsciiDigit, expect]
      | num n =>
        obtain ⟨c, t, hct, hc⟩ := renderInt_head n
        have hsp : isJsonSpace c = false := by
          rcases hc with rfl | hc
          · decide
          · exact (isAsciiDigit_not_space c hc).1
        have hnum := parseNumber_renderInt n rest hnd hnf
        rw [render, parseValue_succ]
        rw [hct] at hnum ⊢
        rw [List.cons_append] at hnum ⊢
        rw [skipWs_cons c _ hsp]
        simp only [if_pos hc, hnum]
        rfl
      | str s =>
        rw [render, parseValue_succ, quote, List.cons_append, skipWs_cons _ _ (by decide)]
        simp only [List.append_assoc, List.singleton_append]
        simp [isAsciiDigit, parseStringBody_quoteBody, Parsed.map]
      | arr xs =>
        cases xs with
        | nil =>
          rw [render, parseValue_succ]
          simp [skipWs, isJsonSpace, isAsciiDigit]
        | cons x xs =>
          obtain ⟨c, t, hct, hsp, hnb, -⟩ := render_head x
          have hsz : 1 + Json.size x + Json.sizeList xs ≤ f := by
            simp only [Json.size, Json.sizeList] at hsize
            omega
          have hwf2 : Json.wellFormed x = true ∧ Json.wellFormedList xs = true := by
            simpa [Json.wellFormed, Json.wellFormedList] using hwf
          have hE := ihE x xs rest hsz hwf2.1 hwf2.2
          rw [render, parseValue_succ, List.cons_append, skipWs_cons _ _ (by decide)]
          simp only [List.append_assoc]
          rw [hct] at hE ⊢
          rw [List.cons_append] at hE ⊢
          simp only [if_neg (by decide : ¬ ('[' = '-' ∨ isAsciiDigit '[' = true)),
            if_neg (by decide : ¬ '[' = '"'), if_true, skipWs_cons c _ hsp, if_neg hnb, hE]
          rfl
      | obj kvs =>
        cases kvs with
        | nil =>
          rw [render, parseValue_succ]
          simp [skipWs, isJsonSpace, isAsciiDigit]
        | cons kv kvs =>
          obtain ⟨k, v⟩ := kv
          have hsz : 1 + Json.size v + Json.sizeFields kvs ≤ f := by
            simp only [Json.size, Json.sizeFields] at hsize
            omega
          have hwf2 : ((k :: kvs.map Prod.fst).Nodup) ∧ Json.wellFormed v = true ∧
              Json.wellFormedFields kvs = true := by
            simpa [Json.wellFormed, Json.wellFormedFields, and_assoc] using hwf
          have hM := ihM k v kvs rest hsz hwf2.2.1 hwf2.2.2
          rw [render, parseValue_succ, List.cons_append, skipWs_cons _ _ (by decide)]
          simp only [List.append_assoc, List.cons_append]
          rw [quote] at hM ⊢
          simp only [List.append_assoc, List.cons_append, List.nil_append] at hM ⊢
          simp only [if_neg (by decide : ¬ ('{' = '-' ∨ isAsciiDigit '{' = true)),
            if_neg (by decide : ¬ '{' = '"'), if_neg (by decide : ¬ '{' = '['), if_true,
            skipWs_cons '"' _ (by decide), if_neg (by decide : ¬ '"' = '}'), hM]
          simp only [Parsed.map]
          rw [buildObject_nodup _ (by simpa using hwf2.1)]
    · intro x xs rest hsize hwfx hwfxs
      have hV := ihV x (renderTail xs ++ rest) (by omega) hwfx (renderTail_delimited xs rest)
      rw [parseElems_succ, hV]
      cases xs with
      | nil => simp [renderTail, skipWs, isJsonSpace]
      | cons y ys =>
        have hsz : 1 + Json.size y + Json.sizeList ys ≤ f := by
          simp only [Json.sizeList] at hsize
          omega
        have hwf2 : Json.wellFormed y = true ∧ Json.wellFormedList ys = true := by
          simpa [Json.wellFormedList] using hwfxs
        have hE := ihE y ys rest hsz hwf2.1 hwf2.2
        simp [renderTail, skipWs, isJsonSpace, hE, Parsed.map]
    · intro k v kvs rest hsize hwfv hwfkvs
      have hV := ihV v (renderFieldsTail kvs ++ rest) (by omega) hwfv
        (renderFieldsTail_delimited kvs rest)
      rw [parseMembers_succ, quote]
      simp only [List.append_assoc, List.cons_append, List.nil_append]
      rw [skipWs_cons _ _ (by decide)]
      simp only [if_true, parseStringBody_quoteBody, skipWs_cons ':' _ (by decide), hV]
      cases kvs with
      | nil => simp [renderFieldsTail, skipWs, isJsonSpace]
      | cons kv2 kvs2 =>
        obtain ⟨k2, v2⟩ := kv2
        have hsz : 1 + Json.size v2 + Json.sizeFields kvs2 ≤ f := by
          simp only [Json.sizeFields] at hsize
          omega
        have hwf2 : Json.wellFormed v2 = true ∧ Json.wellFormedFields kvs2 = true := by
          simpa [Json.wellFormedFields] using hwfkvs
        have hM := ihM k2 v2 kvs2 rest hsz hwf2.1 hwf2.2
        rw [quote] at hM
        simp only [List.append_assoc, List.cons_append, List.nil_append] at hM
        simp [renderFieldsTail, skipWs, isJsonSpace, quote, hM, Parsed.map]
/-- A rendered value has at least as many characters as nodes, so the length of a
text bounds the fuel its parse needs. -/
theorem size_le_length_aux (n : Nat) :
    (∀ j, Json.size j ≤ n → Json.size j ≤ (render j).length) ∧
    (∀ xs, Json.sizeList xs ≤ n → Json.sizeList xs + 1 ≤ (renderTail xs).length) ∧
    (∀ kvs, Json.sizeFields kvs ≤ n →
      Json.sizeFields kvs + 1 ≤ (renderFieldsTail kvs).length) := by
  induction n with
  | zero =>
    refine ⟨fun j h => ?_, fun xs h => ?_, fun kvs h => ?_⟩
    · have := Json.size_pos j
      omega
    · cases xs with
      | nil => simp [Json.sizeList, renderTail]
      | cons x xs =>
        simp only [Json.sizeList] at h
        omega
    · cases kvs with
      | nil => simp [Json.sizeFields, renderFieldsTail]
      | cons kv kvs =>
        obtain ⟨k, v⟩ := kv
        simp only [Json.sizeFields] at h
        omega
  | succ n ih =>
    obtain ⟨ihV, ihE, ihM⟩ := ih
    refine ⟨fun j h => ?_, fun xs h => ?_, fun kvs h => ?_⟩
    · cases j with
      | null => simp [Json.size, render]
      | bool b => cases b <;> simp [Json.size, render]
      | num m =>
        obtain ⟨c, t, hct, -⟩ := renderInt_head m
        simp [Json.size, render, hct]
      | str s => simp [Json.size, render, quote]
      | arr xs =>
        cases xs with
        | nil => simp [Json.size, Json.sizeList, render]
        | cons x xs =>
          have h1 : Json.sizeList (x :: xs) ≤ n := by
            simp only [Json.size] at h
            omega
          have h2 := ihE (x :: xs) h1
          simp only [renderTail, List.length_cons, List.length_append] at h2
          simp only [Json.size, render, List.length_cons, List.length_append]
          omega
      | obj kvs =>
        cases kvs with
        | nil => simp [Json.size, Json.sizeFields, render]
        | cons kv kvs =>
          obtain ⟨k, v⟩ := kv
          have h1 : Json.sizeFields ((k, v) :: kvs) ≤ n := by
            simp only [Json.size] at h
            omega
          have h2 := ihM ((k, v) :: kvs) h1
          simp only [renderFieldsTail, List.length_cons, List.length_append] at h2
          simp only [Json.size, render, List.length_cons, List.length_append]
          omega
    · cases xs with
      | nil => simp [Json.sizeList, renderTail]
      | cons x xs =>
        simp only [Json.sizeList] at h
        have h1 := ihV x (by omega)
        have h2 := ihE xs (by omega)
        simp only [Json.sizeList, renderTail, List.length_cons, List.length_append]
        omega
    · cases kvs with
      | nil => simp [Json.sizeFields, renderFieldsTail]
      | cons kv kvs =>
        obtain ⟨k, v⟩ := kv
        simp only [Json.sizeFields] at h
        have h1 := ihV v (by omega)
        have h2 := ihM kvs (by omega)
        simp only [Json.sizeFields, renderFieldsTail, List.length_cons, List.length_append]
        omega

theorem size_le_length (j : Json) : Json.size j ≤ (render j).length :=
  (size_le_length_aux (Json.size j)).1 j (Nat.le_refl _)

/-- `JSON.parse(JSON.stringify(v))` is `v`, for every value of the model. -/
theorem JSON.parse_stringify (j : Json) (hwf : Json.wellFormed j = true) :
    JSON.parse (JSON.stringify j) = .value j := by
  have hfuel : Json.size j ≤ (render j).length + 1 :=
    Nat.le_succ_of_le (size_le_length j)
  have h := (parse_render_aux ((render j).length + 1)).1 j [] hfuel hwf rfl
  rw [List.append_nil] at h
  unfold JSON.parse JSON.stringify
  simp only [h]
  rfl

theorem JSON.stringify_ne_empty (j : Json) : JSON.stringify j ≠ "" := by
  obtain ⟨c, t, hct, -⟩ := render_head j
  intro h
  have h2 : (JSON.stringify j).data = ("" : String).data := by rw [h]
  rw [JSON.stringify, hct] at h2
  cases h2

/-! ## Persistence: the claims -/

theorem bookingsValue_wellFormed (bs : List Booking) :
    Json.wellFormed (bookingsValue bs) = true := by
  have h : ∀ l : List Booking, Json.wellFormedList (l.map Booking.toJson) = true := by
    intro l
    induction l with
    | nil => rfl
    | cons b l ih =>
      have hb : Json.wellFormed (Booking.toJson b) = true := by
        simp [Booking.toJson, Json.wellFormed, Json.wellFormedFields]
      rw [List.map_cons, Json.wellFormedList, hb, ih]
      rfl
  rw [bookingsValue, Json.wellFormed]
  exact h bs

theorem servicesValue_wellFormed (ss : List Service) :
    Json.wellFormed (servicesValue ss) = true := by
  have h : ∀ l : List Service, Json.wellFormedList (l.map Service.toJson) = true := by
    intro l
    induction l with
    | nil => rfl
    | cons x l ih =>
      have hx : Json.wellFormed (Service.toJson x) = true := by
        unfold Service.toJson
        split <;> simp [Json.wellFormed, Json.wellFormedFields]
      rw [List.map_cons, Json.wellFormedList, hx, ih]
      rfl
  rw [servicesValue, Json.wellFormed]
  exact h ss

theorem bookingToJson_injective : Function.Injective Booking.toJson := by
  intro a b h
  cases a
  cases b
  simpa [Booking.toJson] using h

theorem serviceToJson_injective : Function.Injective Service.toJson := by
  intro a b h
  obtain ⟨ai, an, ap, am, al⟩ := a
  obtain ⟨bi, bn, bp, bm, bl⟩ := b
  cases al <;> cases bl <;> simp [Service.toJson] at h ⊢
  · exact h
  · obtain ⟨h1, h2, h3, h4⟩ := h
    exact ⟨h4, h1, h2, h3⟩

theorem bookingsValue_injective (a b : List Booking) (h : bookingsValue a = bookingsValue b) :
    a = b := by
  simp only [bookingsValue, Json.arr.injEq] at h
  exact List.map_injective_iff.2 bookingToJson_injective h

theorem servicesValue_injective (a b : List Service) (h : servicesValue a = servicesValue b) :
    a = b := by
  simp only [servicesValue, Json.arr.injEq] at h
  exact List.map_injective_iff.2 serviceToJson_injective h

theorem orDefault_stringify (j : Json) (fallback : String) :
    orDefault (some (JSON.stringify j)) fallback = JSON.stringify j := by
  simp [orDefault, JSON.stringify_ne_empty]

theorem loadBookings_persistBookings (st : AppState) (ls : LocalStorage) :
    loadBookings (persistBookings st ls) = some (bookingsValue st.bookings) := by
  have hget : (persistBookings st ls).getItem STORAGE.BOOKINGS =
      some (JSON.stringify (bookingsValue st.bookings)) := by
    simp [persistBookings, LocalStorage.getItem, LocalStorage.setItem]
  rw [loadBookings, hget, orDefault_stringify,
    JSON.parse_stringify _ (bookingsValue_wellFormed st.bookings)]

theorem loadServices_persistServices (st : AppState) (ls : LocalStorage) :
    loadServices (persistServices st ls) = some (servicesValue st.services) := by
  have hget : (persistServices st ls).getItem STORAGE.SERVICES =
      some (JSON.stringify (servicesValue st.services)) := by
    simp [persistServices, LocalStorage.getItem, LocalStorage.setItem]
  rw [loadServices, hget, orDefault_stringify,
    JSON.parse_stringify _ (servicesValue_wellFormed st.services)]
  rfl

/-- C5. After every mutating operation the key of the collection it changed holds
`JSON.stringify` of the whole updated collection, and the startup loader run on the
storage returns the value of that collection: the same elements in the same order,
and no other collection has that value. The empty service list is reloaded as empty,
not as the default services. After `handleBook` the new booking is first. -/
theorem persisted_collection_round_trips (op : StoreOp) (st : AppState)
    (ls : LocalStorage) :
    (dispatch op st ls).1 = op.apply st ∧
      (op.onBookings = true →
        (dispatch op st ls).2.getItem STORAGE.BOOKINGS =
            some (JSON.stringify (bookingsValue (op.apply st).bookings)) ∧
          loadBookings (dispatch op st ls).2 = some (bookingsValue (op.apply st).bookings) ∧
          ∀ bs, loadBookings (dispatch op st ls).2 = some (bookingsValue bs) →
            bs = (op.apply st).bookings) ∧
      (op.onBookings = false →
        (dispatch op st ls).2.getItem STORAGE.SERVICES =
            some (JSON.stringify (servicesValue (op.apply st).services)) ∧
          loadServices (dispatch op st ls).2 = some (servicesValue (op.apply st).services) ∧
          ∀ ss, loadServices (dispatch op st ls).2 = some (servicesValue ss) →
            ss = (op.apply st).services) ∧
      (∀ bk, op = .book bk → (op.apply st).bookings = bk :: st.bookings) := by
  refine ⟨by unfold dispatch; split <;> rfl, fun hb => ?_, fun hs => ?_, fun bk hop => ?_⟩
  · have hd : (dispatch op st ls).2 = persistBookings (op.apply st) ls := by
      simp [dispatch, hb]
    rw [hd]
    refine ⟨by simp [persistBookings, LocalStorage.getItem, LocalStorage.setItem],
      loadBookings_persistBookings _ _, fun bs hbs => ?_⟩
    rw [loadBookings_persistBookings] at hbs
    exact (bookingsValue_injective _ _ (Option.some.inj hbs)).symm
  · have hd : (dispatch op st ls).2 = persistServices (op.apply st) ls := by
      simp [dispatch, hs]
    rw [hd]
    refine ⟨by simp [persistServices, LocalStorage.getItem, LocalStorage.setItem],
      loadServices_persistServices _ _, fun ss hss => ?_⟩
    rw [loadServices_persistServices] at hss
    exact (servicesValue_injective _ _ (Option.some.inj hss)).symm
  · subst hop
    rfl

/-- The id utility on concrete readings: base 36 uses the digits `0` to `9` and `a`
to `z`, as `Number.prototype.toString(36)` does. -/
theorem id_examples :
    toString36 1893488400000 = "o5uu3s00" ∧ toString36 35 = "z" ∧ toString36 36 = "10" ∧
      toString36 (-37) = "-11" ∧ sampleBooking.id = "b_o5uu3s00k3f9" ∧
      shaveId = "s_o5tdh24gx7qa" := by
  decide

/-- The persistence path on concrete values: the text written for the first default
service and for a service added by `addService` (its `id` last); an emptied service
list is written as `[]` and reloaded as the empty list; a corrupted bookings entry is
reloaded as the empty list, and a missing services entry as the default services. -/
theorem persistence_examples :
    JSON.stringify (servicesValue (DEFAULT_SERVICES.take 1)) =
        "[\x7b\"id\":\"s1\",\"name\":\"Haircut\",\"price\":2000,\"minutes\":30\x7d]" ∧
      JSON.stringify (servicesValue (shaveApp.services.take 1)) =
        "[\x7b\"name\":\"Shave\",\"price\":1200,\"minutes\":20,\"id\":\"s_o5tdh24gx7qa\"\x7d]" ∧
      (persistServices noServiceApp (fun _ => none)).getItem STORAGE.SERVICES = some "[]" ∧
      loadServices (persistServices noServiceApp (fun _ => none)) = some (servicesValue []) ∧
      loadBookings (fun _ => some "[oops") = some (bookingsValue []) ∧
      loadServices (fun _ => none) = some (servicesValue DEFAULT_SERVICES) :=
  ⟨by decide, by decide, by decide, loadServices_persistServices _ _, rfl, rfl⟩

end Barber
